import Mathlib

/-!
Verification of the llmo-content repository: a shallow embedding of the
response-recovery routine (`extractJsonFromResponse`), the document exporter
(`generateMarkdown`, `generateHTML`, `escapeHtml`, the export route handler),
the generation-route validation and SEO-attachment logic, and the title
mapping, together with theorems about them.

Strings of the JavaScript source are embedded as `List Char` (called `Str`
below); JavaScript string primitives (`trim`, `indexOf`, `substring`,
`replace`, the two fenced-block regular expressions) are translated into
executable functions on `Str`.  `JSON.parse` success is an external-library
effect and is modelled by a boolean oracle `jsonOk` passed to the functions
that consult it.
-/

namespace Llmo

/-- JavaScript strings, embedded as lists of characters. -/
abbrev Str := List Char

/-- Whitespace class used by JavaScript `String.prototype.trim` and the
regex class `\s` (the common members; both use the same set, which is all
that matters here). -/
def jsWhitespace (c : Char) : Bool :=
  c = ' ' || c = '\t' || c = '\n' || c = '\r' || c = '\x0b' || c = '\x0c' || c = '\u00A0'

/-- JavaScript `String.prototype.trim`: strip whitespace from both ends. -/
def jsTrim (l : Str) : Str :=
  (l.dropWhile jsWhitespace).rdropWhile jsWhitespace

/-- Suffix of `l` starting right after the first occurrence of `marker`
(`none` when `marker` does not occur).  Used to model where a regex whose
pattern begins with the literal `marker` can start matching. -/
def findMarker (marker : Str) : Str → Option Str
  | [] => none
  | c :: rest =>
    if marker.isPrefixOf (c :: rest) then some ((c :: rest).drop marker.length)
    else findMarker marker rest

/-- Prefix of `l` strictly before the first occurrence of `marker`
(`none` when `marker` does not occur). -/
def takeUntilMarker (marker : Str) : Str → Option Str
  | [] => none
  | c :: rest =>
    if marker.isPrefixOf (c :: rest) then some []
    else (takeUntilMarker marker rest).map (c :: ·)

/-- The three-backtick fence delimiter. -/
def triMarker : Str := "```".data

/-- The json-tagged fence opener. -/
def jsonFenceMarker : Str := "```json".data

/-- Model of `response.match(/OPEN\s*([\s\S]*?)\s*```/)` followed by
`match[1]`: the segment between the leftmost occurrence of the opening
marker that has a closing triple backtick after it, and that first closing
triple backtick.  The `\s*` groups swallowed by the regex around the lazy
capture are immaterial because every caller trims the capture; the segment
returned here trims to the same string as the regex capture.  When the
first occurrence of the opener has no closing fence after it, no later
occurrence can have one either (a closing fence is itself a triple
backtick), so returning `none` matches the regex failing. -/
def matchFence (openMarker : Str) (s : Str) : Option Str :=
  match findMarker openMarker s with
  | some rest => takeUntilMarker triMarker rest
  | none => none

/-- Index of the last occurrence of `c` (JavaScript `lastIndexOf`). -/
def lastIdxOf (c : Char) (l : Str) : Option Nat :=
  match List.findIdx? (· = c) l.reverse with
  | some i => some (l.length - 1 - i)
  | none => none

/-- Step 4/5 of `extractJsonFromResponse`: the substring from the first
`{` to the last `}` inclusive when both exist in that order, otherwise the
trimmed input. -/
def braceFallback (response : Str) : Str :=
  match List.findIdx? (· = '{') response, lastIdxOf '}' response with
  | some jsonStart, some jsonEnd =>
    if jsonStart < jsonEnd then (response.take (jsonEnd + 1)).drop jsonStart
    else jsTrim response
  | _, _ => jsTrim response

/-- JavaScript `startsWith` for a single character. -/
def startsWithChar (ch : Char) (l : Str) : Bool :=
  match l with
  | c :: _ => c = ch
  | [] => false

/-- JavaScript `endsWith` for a single character. -/
def endsWithChar (ch : Char) (l : Str) : Bool :=
  match l.getLast? with
  | some c => c = ch
  | none => false

/-- The response-recovery helper `extractJsonFromResponse` (identical in the
three route files).  `jsonOk` is the `JSON.parse`-succeeds oracle for the
`try { JSON.parse(response.trim()) }` probe of step 1. -/
def extractJsonFromResponse (jsonOk : Str → Bool) (response : Str) : Str :=
  if jsonOk (jsTrim response) then jsTrim response
  else
    match matchFence jsonFenceMarker response with
    | some inner => jsTrim inner
    | none =>
      match matchFence triMarker response with
      | some inner =>
        if startsWithChar '{' (jsTrim inner) && endsWithChar '}' (jsTrim inner) then
          jsTrim inner
        else braceFallback response
      | none => braceFallback response

/-! ## Data model

The request-scoped records of the routes (`GeneratedArticle` in the
article route, the anonymous `article` shape of the export route, the
`SEOMetadata` interface of the SEO route). -/

/-- A third-level block: `subheadings` entry `\x7b title, content \x7d`. -/
structure Subheading where
  title : Str
  content : Str
deriving DecidableEq, Repr

/-- A `sections` entry: heading, content, optional subheadings (the `?`
field of the TypeScript interface is an `Option`). -/
structure Section where
  heading : Str
  content : Str
  subheadings : Option (List Subheading)
deriving DecidableEq, Repr

/-- `SEOMetadata.structuredData`. -/
structure StructuredData where
  sdType : Str
  name : Str
  description : Str
  author : Str
  datePublished : Str
  dateModified : Str
  keywords : List Str
deriving DecidableEq, Repr

/-- The `SEOMetadata` interface. -/
structure SEOMetadata where
  title : Str
  description : Str
  keywords : List Str
  ogTitle : Str
  ogDescription : Str
  twitterTitle : Str
  twitterDescription : Str
  metaRobots : Str
  canonicalUrl : Option Str
  structuredData : Option StructuredData
deriving DecidableEq, Repr

/-- `GeneratedArticle` (also the `article` field of an export request). -/
structure Article where
  title : Str
  sections : List Section
  seoMetadata : Option SEOMetadata
deriving DecidableEq, Repr

/-- The `options` object of an export request. -/
structure ExportOptions where
  includeSEO : Option Bool
  includeStyles : Option Bool
  filename : Option Str
deriving DecidableEq, Repr

/-- JavaScript truthiness of an optional string field (`undefined` and the
empty string are falsy). -/
def strOptTruthy : Option Str → Bool
  | some s => !s.isEmpty
  | none => false

/-! ## Markdown exporter (`generateMarkdown` in the export route) -/

/-- One front-matter keywords entry: `"k"`. -/
def quoted (k : Str) : Str := "\"".data ++ k ++ "\"".data

/-- `options.includeSEO && article.seoMetadata` (JavaScript truthiness of
the two request fields). -/
def includeSEOActive (article : Article) (options : ExportOptions) : Bool :=
  (options.includeSEO = some true) && article.seoMetadata.isSome

/-- The front-matter block (`generateMarkdown`, SEO branch).  `isoDate` is
the embedded `new Date().toISOString().split('T')[0]` value. -/
def frontMatter (seo : SEOMetadata) (isoDate : Str) : Str :=
  "---\n".data
  ++ "title: \"".data ++ seo.title ++ "\"\n".data
  ++ "description: \"".data ++ seo.description ++ "\"\n".data
  ++ "keywords: [".data ++ List.intercalate ", ".data (seo.keywords.map quoted) ++ "]\n".data
  ++ "robots: \"".data ++ seo.metaRobots ++ "\"\n".data
  ++ (match seo.canonicalUrl with
      | some u => if u.isEmpty then [] else "canonical: \"".data ++ u ++ "\"\n".data
      | none => [])
  ++ "date: \"".data ++ isoDate ++ "\"\n".data
  ++ "author: \"CloudFlow Dynamics\"\n".data
  ++ "og:\n".data
  ++ "  title: \"".data ++ seo.ogTitle ++ "\"\n".data
  ++ "  description: \"".data ++ seo.ogDescription ++ "\"\n".data
  ++ "  type: \"article\"\n".data
  ++ "twitter:\n".data
  ++ "  title: \"".data ++ seo.twitterTitle ++ "\"\n".data
  ++ "  description: \"".data ++ seo.twitterDescription ++ "\"\n".data
  ++ "  card: \"summary_large_image\"\n".data
  ++ "---\n\n".data

/-- Markdown text of one subheading. -/
def subheadingMd (sub : Subheading) : Str :=
  "### ".data ++ sub.title ++ "\n\n".data ++ sub.content ++ "\n\n".data

/-- Markdown text of one section (heading, content, then subheadings when
the optional array is present). -/
def sectionMd (s : Section) : Str :=
  "## ".data ++ s.heading ++ "\n\n".data ++ s.content ++ "\n\n".data
  ++ (match s.subheadings with
      | some subs => (subs.map subheadingMd).flatten
      | none => [])

/-- The fixed Markdown attribution footer; `d` is the embedded
`new Date().toLocaleDateString('ja-JP')` value. -/
def markdownFooter (d : Str) : Str :=
  "---\n\n".data
  ++ "*この記事は [LLMO コンテンツ生成システム](https://github.com/ukenn2112/llmo-content) により自動生成されました。*\n".data
  ++ "*生成日: ".data ++ d ++ "*\n".data

/-- `generateMarkdown(article, options)`.  The two date values produced by
`new Date()` in the source are passed in as `isoDate` and `d`. -/
def generateMarkdown (article : Article) (options : ExportOptions)
    (isoDate d : Str) : Str :=
  (if includeSEOActive article options then
    match article.seoMetadata with
    | some seo => frontMatter seo isoDate
    | none => []
  else [])
  ++ "# ".data ++ article.title ++ "\n\n".data
  ++ (article.sections.map sectionMd).flatten
  ++ markdownFooter d

/-! ## HTML exporter (`generateHTML`, `escapeHtml` in the export route) -/

/-- Replacement map of `escapeHtml` for one character. -/
def escapeChar (c : Char) : Str :=
  if c = '&' then "&amp;".data
  else if c = '<' then "&lt;".data
  else if c = '>' then "&gt;".data
  else if c = '"' then "&quot;".data
  else if c = '\'' then "&#039;".data
  else [c]

/-- `escapeHtml`: `text.replace(/[&<>"']/g, (m) => map[m])`. -/
def escapeHtml (text : Str) : Str := text.flatMap escapeChar

/-- JavaScript `String.prototype.replace(/\n/g, repl)`. -/
def replaceNewlines (repl : Str) (l : Str) : Str :=
  l.flatMap fun c => if c = '\n' then repl else [c]

/-- The lines of the fixed inline stylesheet template literal of
`generateHTML` (the literal starts with a newline, so its first line is
empty).  It is transcribed line by line so that proofs and evaluation
stay piecewise. -/
def styleLines : List Str :=
  [
    "".data,
    "  <style>".data,
    "    body \x7b".data,
    "      font-family: -apple-system, BlinkMacSystemFont, \x27Segoe UI\x27, \x27Roboto\x27, \x27Oxygen\x27, \x27Ubuntu\x27, \x27Cantarell\x27, sans-serif;".data,
    "      line-height: 1.6;".data,
    "      max-width: 800px;".data,
    "      margin: 0 auto;".data,
    "      padding: 20px;".data,
    "      color: #333;".data,
    "      background-color: #fff;".data,
    "    \x7d".data,
    "    ".data,
    "    h1 \x7b".data,
    "      color: #2c3e50;".data,
    "      border-bottom: 3px solid #3498db;".data,
    "      padding-bottom: 10px;".data,
    "      margin-bottom: 30px;".data,
    "    \x7d".data,
    "    ".data,
    "    h2 \x7b".data,
    "      color: #34495e;".data,
    "      margin-top: 40px;".data,
    "      margin-bottom: 20px;".data,
    "      padding-left: 10px;".data,
    "      border-left: 4px solid #3498db;".data,
    "    \x7d".data,
    "    ".data,
    "    h3 \x7b".data,
    "      color: #7f8c8d;".data,
    "      margin-top: 30px;".data,
    "      margin-bottom: 15px;".data,
    "    \x7d".data,
    "    ".data,
    "    p \x7b".data,
    "      margin-bottom: 16px;".data,
    "      text-align: justify;".data,
    "    \x7d".data,
    "    ".data,
    "    .section \x7b".data,
    "      margin-bottom: 40px;".data,
    "    \x7d".data,
    "    ".data,
    "    .subsection \x7b".data,
    "      margin-left: 20px;".data,
    "      margin-bottom: 25px;".data,
    "      padding: 15px;".data,
    "      background-color: #f8f9fa;".data,
    "      border-radius: 8px;".data,
    "      border-left: 3px solid #28a745;".data,
    "    \x7d".data,
    "    ".data,
    "    .footer \x7b".data,
    "      margin-top: 60px;".data,
    "      padding: 20px;".data,
    "      background-color: #ecf0f1;".data,
    "      border-radius: 8px;".data,
    "      text-align: center;".data,
    "      color: #7f8c8d;".data,
    "      font-size: 14px;".data,
    "    \x7d".data,
    "    ".data,
    "    .meta-info \x7b".data,
    "      background-color: #e3f2fd;".data,
    "      padding: 15px;".data,
    "      border-radius: 8px;".data,
    "      margin-bottom: 30px;".data,
    "      border-left: 4px solid #2196f3;".data,
    "    \x7d".data,
    "    ".data,
    "    .meta-info h4 \x7b".data,
    "      margin: 0 0 10px 0;".data,
    "      color: #1976d2;".data,
    "    \x7d".data,
    "    ".data,
    "    @media (max-width: 768px) \x7b".data,
    "      body \x7b".data,
    "        padding: 10px;".data,
    "      \x7d".data,
    "      ".data,
    "      .subsection \x7b".data,
    "        margin-left: 10px;".data,
    "      \x7d".data,
    "    \x7d".data,
    "    ".data,
    "    @media print \x7b".data,
    "      body \x7b".data,
    "        background-color: white;".data,
    "      \x7d".data,
    "      ".data,
    "      .footer \x7b".data,
    "        background-color: white;".data,
    "        border: 1px solid #ddd;".data,
    "      \x7d".data,
    "    \x7d".data,
    "  </style>".data
  ]

/-- The fixed inline stylesheet template literal of `generateHTML`
(included unless `options.includeStyles === false`): its lines, each
newline-terminated. -/
def styleBlock : Str := (styleLines.map (fun l => l ++ ['\n'])).flatten

/-- Lowercase hexadecimal digit, as used by the `\u00XX` escapes of
`JSON.stringify`. -/
def hexDigitLower (n : Nat) : Char :=
  if n < 10 then Char.ofNat (48 + n) else Char.ofNat (97 + (n - 10))

/-- String escaping of `JSON.stringify`: the two-character escapes for
quote, backslash, backspace, form feed, newline, carriage return and tab,
and `\u00XX` for the remaining control characters. -/
def jsonEscapeChar (c : Char) : Str :=
  if c = '"' then "\\\"".data
  else if c = '\\' then "\\\\".data
  else if c = '\x08' then "\\b".data
  else if c = '\x0c' then "\\f".data
  else if c = '\n' then "\\n".data
  else if c = '\r' then "\\r".data
  else if c = '\t' then "\\t".data
  else if c.toNat < 32 then
    "\\u00".data ++ [hexDigitLower (c.toNat / 16), hexDigitLower (c.toNat % 16)]
  else [c]

/-- A JSON string literal as serialized by `JSON.stringify`. -/
def jsonStr (s : Str) : Str := "\"".data ++ s.flatMap jsonEscapeChar ++ "\"".data

/-- The `keywords` array as serialized by `JSON.stringify(v, null, 2)` at
nesting depth one: elements indented four spaces, the closing bracket
two. -/
def jsonKeywordArray (ks : List Str) : Str :=
  match ks with
  | [] => "[]".data
  | _ =>
    "[\n".data
    ++ List.intercalate ",\n".data (ks.map fun k => "    ".data ++ jsonStr k)
    ++ "\n  ]".data

/-- `JSON.stringify(seo.structuredData, null, 2)`: the structured-data
record serialized with two-space indentation (keys at two spaces, the
closing brace at column zero — the surrounding template literal indents
only the first line), fields in declaration order. -/
def stringifyStructuredData (sd : StructuredData) : Str :=
  "\x7b\n  \"type\": ".data ++ jsonStr sd.sdType
  ++ ",\n  \"name\": ".data ++ jsonStr sd.name
  ++ ",\n  \"description\": ".data ++ jsonStr sd.description
  ++ ",\n  \"author\": ".data ++ jsonStr sd.author
  ++ ",\n  \"datePublished\": ".data ++ jsonStr sd.datePublished
  ++ ",\n  \"dateModified\": ".data ++ jsonStr sd.dateModified
  ++ ",\n  \"keywords\": ".data ++ jsonKeywordArray sd.keywords
  ++ "\n\x7d".data

/-- The canonical `<link>` line (emitted when `seo.canonicalUrl` is truthy). -/
def canonicalLink (seo : SEOMetadata) : Str :=
  match seo.canonicalUrl with
  | some u =>
    if u.isEmpty then []
    else "  <link rel=\"canonical\" href=\"".data ++ escapeHtml u ++ "\">\n".data
  | none => []

/-- The `og:url` meta line (emitted when `seo.canonicalUrl` is truthy). -/
def ogUrlLine (seo : SEOMetadata) : Str :=
  match seo.canonicalUrl with
  | some u =>
    if u.isEmpty then []
    else "  <meta property=\"og:url\" content=\"".data ++ escapeHtml u ++ "\">\n".data
  | none => []

/-- The `application/ld+json` script block (emitted when
`seo.structuredData` is present). -/
def structuredDataBlock (seo : SEOMetadata) : Str :=
  match seo.structuredData with
  | some sd =>
    "  <script type=\"application/ld+json\">\n".data
    ++ "  ".data ++ stringifyStructuredData sd ++ "\n".data
    ++ "  </script>\n".data
  | none => []

/-- The SEO metadata `<head>` lines of `generateHTML`. -/
def seoHeadBlock (seo : SEOMetadata) : Str :=
  "  <title>".data ++ escapeHtml seo.title ++ "</title>\n".data
  ++ "  <meta name=\"description\" content=\"".data ++ escapeHtml seo.description ++ "\">\n".data
  ++ "  <meta name=\"keywords\" content=\"".data
    ++ escapeHtml (List.intercalate ", ".data seo.keywords) ++ "\">\n".data
  ++ "  <meta name=\"robots\" content=\"".data ++ escapeHtml seo.metaRobots ++ "\">\n".data
  ++ canonicalLink seo
  ++ "  <meta property=\"og:title\" content=\"".data ++ escapeHtml seo.ogTitle ++ "\">\n".data
  ++ "  <meta property=\"og:description\" content=\"".data
    ++ escapeHtml seo.ogDescription ++ "\">\n".data
  ++ "  <meta property=\"og:type\" content=\"article\">\n".data
  ++ ogUrlLine seo
  ++ "  <meta name=\"twitter:card\" content=\"summary_large_image\">\n".data
  ++ "  <meta name=\"twitter:title\" content=\"".data ++ escapeHtml seo.twitterTitle ++ "\">\n".data
  ++ "  <meta name=\"twitter:description\" content=\"".data
    ++ escapeHtml seo.twitterDescription ++ "\">\n".data
  ++ structuredDataBlock seo

/-- The visible article-info banner (emitted when metadata is included). -/
def metaInfoBlock (d : Str) : Str :=
  "  <div class=\"meta-info\">\n".data
  ++ "    <h4>📊 記事情報</h4>\n".data
  ++ "    <p><strong>生成日:</strong> ".data ++ d ++ "</p>\n".data
  ++ "    <p><strong>生成システム:</strong> LLMO コンテンツ生成システム (CloudFlow Dynamics)</p>\n".data
  ++ "    <p><strong>最適化:</strong> SEO + LLMO/GEO統合最適化</p>\n".data
  ++ "  </div>\n".data

/-- HTML of one subheading. -/
def subsectionHtml (sub : Subheading) : Str :=
  "    <div class=\"subsection\">\n".data
  ++ "      <h3>".data ++ escapeHtml sub.title ++ "</h3>\n".data
  ++ "      <p>".data
    ++ replaceNewlines "</p>\n      <p>".data (escapeHtml sub.content) ++ "</p>\n".data
  ++ "    </div>\n".data

/-- HTML of one section. -/
def sectionHtml (s : Section) : Str :=
  "  <div class=\"section\">\n".data
  ++ "    <h2>".data ++ escapeHtml s.heading ++ "</h2>\n".data
  ++ "    <p>".data
    ++ replaceNewlines "</p>\n    <p>".data (escapeHtml s.content) ++ "</p>\n".data
  ++ (match s.subheadings with
      | some subs => (subs.map subsectionHtml).flatten
      | none => [])
  ++ "  </div>\n\n".data

/-- The fixed HTML attribution footer; `d`/`t` are the embedded
`toLocaleDateString`/`toLocaleTimeString` values. -/
def htmlFooter (d t : Str) : Str :=
  "  <div class=\"footer\">\n".data
  ++ "    <p>🤖 <strong>この記事はAIにより自動生成されました</strong></p>\n".data
  ++ "    <p><em>LLMO コンテンツ生成システム</em> - CloudFlow Dynamics</p>\n".data
  ++ "    <p>生成日: ".data ++ d ++ " ".data ++ t ++ "</p>\n".data
  ++ "  </div>\n".data

/-- `generateHTML(article, options)`.  The date and time strings produced
by `new Date()` in the source are passed in as `d` and `t`. -/
def generateHTML (article : Article) (options : ExportOptions) (d t : Str) : Str :=
  "<!DOCTYPE html>\n<html lang=\"ja\">\n<head>\n".data
  ++ "  <meta charset=\"UTF-8\">\n".data
  ++ "  <meta name=\"viewport\" content=\"width=device-width, initial-scale=1.0\">\n".data
  ++ (if includeSEOActive article options then
        match article.seoMetadata with
        | some seo => seoHeadBlock seo
        | none => []
      else "  <title>".data ++ escapeHtml article.title ++ "</title>\n".data)
  ++ (if options.includeStyles = some false then [] else styleBlock)
  ++ "</head>\n<body>\n".data
  ++ (if includeSEOActive article options then metaInfoBlock d else [])
  ++ "  <h1>".data ++ escapeHtml article.title ++ "</h1>\n\n".data
  ++ (article.sections.map sectionHtml).flatten
  ++ htmlFooter d t
  ++ "</body>\n</html>".data

/-! ## Export route handler (`POST` in the export route) -/

/-- UTF-8 code units of one character. -/
def utf8Bytes (c : Char) : List Nat :=
  let n := c.toNat
  if n < 0x80 then [n]
  else if n < 0x800 then [0xC0 + n / 0x40, 0x80 + n % 0x40]
  else if n < 0x10000 then [0xE0 + n / 0x1000, 0x80 + n / 0x40 % 0x40, 0x80 + n % 0x40]
  else [0xF0 + n / 0x40000, 0x80 + n / 0x1000 % 0x40, 0x80 + n / 0x40 % 0x40, 0x80 + n % 0x40]

/-- Uppercase hexadecimal digit. -/
def hexDigitUpper (n : Nat) : Char :=
  if n < 10 then Char.ofNat (48 + n) else Char.ofNat (55 + n)

/-- Characters `encodeURIComponent` leaves unescaped. -/
def isUriUnreserved (c : Char) : Bool :=
  c.isAlpha || c.isDigit || c = '-' || c = '_' || c = '.' || c = '!'
    || c = '~' || c = '*' || c = '\'' || c = '(' || c = ')'

/-- JavaScript `encodeURIComponent` (percent-encoding of UTF-8 bytes). -/
def encodeURIComponent (l : Str) : Str :=
  l.flatMap fun c =>
    if isUriUnreserved c then [c]
    else (utf8Bytes c).flatMap fun b => ['%', hexDigitUpper (b / 16), hexDigitUpper (b % 16)]

/-- The export route's response: either a `NextResponse.json` error
carrying an HTTP status, or a raw document response with content type and
content-disposition headers. -/
inductive HttpResponse where
  | json (status : Nat) (errorMsg : Str)
  | file (contentType : Str) (contentDisposition : Str) (body : Str)
deriving DecidableEq, Repr

/-- `options.filename || default`. -/
def filenameOr (dflt : Str) (options : ExportOptions) : Str :=
  match options.filename with
  | some f => if f.isEmpty then dflt else f
  | none => dflt

/-- The `Content-Disposition` header value. -/
def contentDispositionFor (filename : Str) : Str :=
  "attachment; filename=\"".data ++ encodeURIComponent filename ++ "\"".data

/-- The export route `POST` handler after request parsing.  The two
document generators are passed as parameters so that theorems can express
that the error paths never consult them; the route itself is this handler
applied to `generateMarkdown` and `generateHTML`. -/
def exportPOST (genMd genHtml : Article → ExportOptions → Str)
    (format : Str) (article : Option Article) (options : ExportOptions) : HttpResponse :=
  if format.isEmpty || article.isNone then
    .json 400 "フォーマットと記事データが必要です".data
  else
    match article with
    | none => .json 400 "フォーマットと記事データが必要です".data
    | some a =>
      if format = "markdown".data then
        .file "text/markdown; charset=utf-8".data
          (contentDispositionFor (filenameOr "article.md".data options))
          (genMd a options)
      else if format = "html".data then
        .file "text/html; charset=utf-8".data
          (contentDispositionFor (filenameOr "article.html".data options))
          (genHtml a options)
      else
        .json 400 "サポートされていないフォーマットです".data

/-! ## Article route handler (`POST` in the article route)

The dependent SEO metadata `fetch` is an external call; its three
observable outcomes (`response.ok` with a payload, `!response.ok`, a
thrown error) are modelled by `SeoOutcome`. -/

/-- Outcome of the dependent `/api/generate-seo` fetch. -/
inductive SeoOutcome where
  | ok (m : SEOMetadata)
  | httpError
  | threw
deriving DecidableEq, Repr

/-- The `if (generateSEO)` block of the article route: attach the metadata
on success, log and keep the article unchanged otherwise. -/
def attachSeo (article : Article) (generateSEO : Bool) (outcome : SeoOutcome) : Article :=
  if generateSEO then
    match outcome with
    | .ok m => { article with seoMetadata := some m }
    | .httpError => article
    | .threw => article
  else article

/-- The article route's response. -/
inductive ArticleResponse where
  | ok (status : Nat) (article : Article)
  | err (status : Nat) (msg : Str)
deriving DecidableEq, Repr

/-- The article route `POST` handler after request parsing: the missing
required-field guard, then article generation (whose success or failure is
the `genResult` parameter, the `catch` mapping failure to a 500), then the
best-effort SEO attachment, then the 200 response. -/
def generateArticlePOST (title keyword : Str) (genResult : Except Str Article)
    (generateSEO : Bool) (outcome : SeoOutcome) : ArticleResponse :=
  if title.isEmpty || keyword.isEmpty then
    .err 400 "タイトルとキーワードが必要です".data
  else
    match genResult with
    | .error _ => .err 500 "記事生成に失敗しました".data
    | .ok a => .ok 200 (attachSeo a generateSEO outcome)

/-! ## Parsed-response validation (`generateOptimizedArticleWithAI`) -/

/-- Parsed JSON values, as produced by `JSON.parse`. -/
inductive JsonVal where
  | jnull
  | jbool (b : Bool)
  | jnum (n : Int)
  | jstr (s : Str)
  | jarr (elems : List JsonVal)
  | jobj (fields : List (Str × JsonVal))

/-- Property lookup on an object's field list. -/
def lookupField : List (Str × JsonVal) → Str → Option JsonVal
  | [], _ => none
  | (k, v) :: rest, key => if k = key then some v else lookupField rest key

/-- JavaScript property access `v.key` (`undefined`, i.e. `none`, on
non-objects and missing keys). -/
def getField : JsonVal → Str → Option JsonVal
  | .jobj fields, key => lookupField fields key
  | _, _ => none

/-- JavaScript truthiness of a parsed JSON value. -/
def truthy : JsonVal → Bool
  | .jnull => false
  | .jbool b => b
  | .jnum n => n != 0
  | .jstr s => !s.isEmpty
  | .jarr _ => true
  | .jobj _ => true

/-- Truthiness of a property access (`undefined` is falsy). -/
def truthyOpt : Option JsonVal → Bool
  | some v => truthy v
  | none => false

/-- `Array.isArray` on a property access. -/
def isArrayOpt : Option JsonVal → Bool
  | some (.jarr _) => true
  | _ => false

/-- The structural validation of `generateOptimizedArticleWithAI`:
`if (!parsedResponse.title || !parsedResponse.sections ||
!Array.isArray(parsedResponse.sections)) throw`, else the parsed value is
returned (cast unchecked to `GeneratedArticle`).  `none` models the
throw. -/
def validateArticleResponse (parsed : JsonVal) : Option JsonVal :=
  if truthyOpt (getField parsed "title".data)
      && truthyOpt (getField parsed "sections".data)
      && isArrayOpt (getField parsed "sections".data) then
    some parsed
  else none

/-- The `sections` array of an accepted parsed response as it enters the
data model. -/
def sectionsOf (parsed : JsonVal) : List JsonVal :=
  match getField parsed "sections".data with
  | some (.jarr elems) => elems
  | _ => []

/-! ## Title mapping (`generateOptimizedTitlesWithAI`) -/

/-- A `GeneratedTitle`: the synthesized id together with the `title` and
`description` properties of the parsed entry (property access on an
arbitrary parsed value, hence optional). -/
structure GeneratedTitle where
  id : Str
  title : Option JsonVal
  description : Option JsonVal

/-- Decimal digits of `n`, most significant first, with structural fuel
(`fuel ≥ n` suffices). -/
def natToStrAux : Nat → Nat → Str
  | 0, _ => []
  | fuel + 1, n =>
    if n < 10 then [Nat.digitChar n]
    else natToStrAux fuel (n / 10) ++ [Nat.digitChar (n % 10)]

/-- JavaScript number-to-string conversion for a natural number
(decimal notation, as in `'ai-title-' + (index + 1)`). -/
def natToStr (n : Nat) : Str := natToStrAux (n + 1) n

/-- The mapping body of `parsedResponse.titles.map((title, index) => ...)`
starting at a given index. -/
def mkTitlesFrom (index : Nat) : List JsonVal → List GeneratedTitle
  | [] => []
  | t :: rest =>
    { id := "ai-title-".data ++ natToStr (index + 1),
      title := getField t "title".data,
      description := getField t "description".data } :: mkTitlesFrom (index + 1) rest

/-- The candidate list built from the parsed `titles` array. -/
def mkGeneratedTitles (titles : List JsonVal) : List GeneratedTitle :=
  mkTitlesFrom 0 titles

/-! ## Markdown re-extraction

The round-trip property of the spec re-extracts headings and bodies from
an exported Markdown document "by splitting the output on the known
heading markers".  The extractor below does exactly that: it removes the
fixed attribution footer, splits the document into lines, takes the
`# `-line as the title and then folds over the remaining lines, starting a
new section at each `## `-line, a new subheading at each `### `-line, and
accumulating every other line into the current body.  The single blank
line that the exporter emits after each heading is consumed; bodies are
joined back with newlines and trailing whitespace is trimmed. -/

/-- Split into lines at each newline character. -/
def splitLines : Str → List Str
  | [] => [[]]
  | c :: rest =>
    if c = '\n' then [] :: splitLines rest
    else
      match splitLines rest with
      | l :: ls => (c :: l) :: ls
      | [] => [[c]]

/-- Join lines with newline separators (left inverse of `splitLines`). -/
def joinLines : List Str → Str
  | [] => []
  | [l] => l
  | l :: ls => l ++ '\n' :: joinLines ls

/-- Does this line open a section (`## ` marker)? -/
def isSecStart (l : Str) : Bool := "## ".data.isPrefixOf l

/-- Does this line open a subheading (`### ` marker)? -/
def isSubStart (l : Str) : Bool := "### ".data.isPrefixOf l

/-- Body lines: neither section nor subheading marker lines. -/
def isBodyLine (l : Str) : Bool := !isSecStart l && !isSubStart l

/-- Drop the single structural blank line the exporter emits after a
heading line. -/
def dropOneBlank : List Str → List Str
  | [] => []
  | l :: ls => if l.isEmpty then ls else l :: ls

/-- Reassemble accumulated body lines and trim trailing whitespace. -/
def rtrimJoin (body : List Str) : Str :=
  (joinLines (dropOneBlank body)).rdropWhile jsWhitespace

/-- Extraction state: lines accumulated since the last marker below the
cursor, subheadings accumulated since the last section marker below, and
finished sections (the extractor folds from the bottom of the document
upward). -/
structure MdAcc where
  pending : List Str
  subs : List Subheading
  secs : List Section
deriving DecidableEq, Repr

/-- One line of the extraction fold. -/
def mdStep (l : Str) (acc : MdAcc) : MdAcc :=
  if isSecStart l then
    { pending := [], subs := [],
      secs := { heading := l.drop 3, content := rtrimJoin acc.pending,
                subheadings := if acc.subs.isEmpty then none else some acc.subs } :: acc.secs }
  else if isSubStart l then
    { pending := [],
      subs := { title := l.drop 4, content := rtrimJoin acc.pending } :: acc.subs,
      secs := acc.secs }
  else { acc with pending := l :: acc.pending }

/-- Extract the section list from the lines following the title line. -/
def parseSecsLines (ls : List Str) : List Section :=
  (ls.foldr mdStep ⟨[], [], []⟩).secs

/-- Remove an exact suffix. -/
def stripSuffix (suffixStr l : Str) : Option Str :=
  if suffixStr <:+ l then some (l.take (l.length - suffixStr.length)) else none

/-- Re-extract title, headings and bodies from an exported Markdown
document by splitting on the heading markers (`d` is the date stamp the
footer was generated with). -/
def extractMarkdown (d : Str) (md : Str) : Option (Str × List Section) :=
  match stripSuffix (markdownFooter d) md with
  | none => none
  | some core =>
    match splitLines core with
    | [] => none
    | firstLine :: rest =>
      if "# ".data.isPrefixOf firstLine then
        some (firstLine.drop 2, parseSecsLines rest)
      else none

/-- Trailing-whitespace normalization of one string. -/
def rtrimWs (l : Str) : Str := l.rdropWhile jsWhitespace

/-- A subheading up to trailing-whitespace normalization of its body. -/
def normSubheading (sub : Subheading) : Subheading :=
  { title := sub.title, content := rtrimWs sub.content }

/-- A section up to trailing-whitespace normalization of its bodies. -/
def normSection (s : Section) : Section :=
  { heading := s.heading, content := rtrimWs s.content,
    subheadings := s.subheadings.map (List.map normSubheading) }

/-- Concatenate lines, each newline-terminated (the line-level
specification of the exporter's output used by the round-trip proof). -/
def withNl (L : List Str) : Str := (L.map (fun l => l ++ ['\n'])).flatten

/-- The lines a subheading contributes to the exported Markdown body. -/
def subLinesList (sub : Subheading) : List Str :=
  ("### ".data ++ sub.title) :: [] :: (splitLines sub.content ++ [[]])

/-- The lines a section contributes to the exported Markdown body. -/
def secLinesList (s : Section) : List Str :=
  ("## ".data ++ s.heading) :: [] :: (splitLines s.content ++ [[]]
    ++ (match s.subheadings with
        | some subs => (subs.map subLinesList).flatten
        | none => []))

/-- All lines of the exported Markdown body (without front matter and
before the footer). -/
def allLines (a : Article) : List Str :=
  ("# ".data ++ a.title) :: [] :: (a.sections.map secLinesList).flatten

/-! ## Substring scanner for the HTML escaping claim

A three-state automaton that recognizes the character sequence `<sc`
(the decisive prefix of `<script>`): state 1 after `<`, state 2 after
`<s`, absorbing state 3 after `<sc`.  Scanning composes over append via
`List.foldl_append`, which makes "the document never contains `<sc`"
provable piecewise over the exporter's template. -/

/-- Transition function of the `<sc` scanner. -/
def scStep (st : Nat) (c : Char) : Nat :=
  if st = 3 then 3
  else if c = '<' then 1
  else if st = 1 && c = 's' then 2
  else if st = 2 && c = 'c' then 3
  else 0

/-- Run the scanner from state `st`. -/
def scScan (st : Nat) (l : Str) : Nat := l.foldl scStep st

/-- Clean strings: scanning from the initial state neither reaches the
match state nor ends in a partial match (so cleanliness is preserved by
concatenation). -/
def scClean (l : Str) : Prop := scScan 0 l = 0

instance (l : Str) : Decidable (scClean l) := by unfold scClean; infer_instance

/-- Every `&` in `l` is immediately followed by one of the five entity
tails produced by `escapeHtml`. -/
def ampEntitiesOnly : Str → Bool
  | [] => true
  | c :: rest =>
    (if c = '&' then
      "amp;".data.isPrefixOf rest || "lt;".data.isPrefixOf rest
        || "gt;".data.isPrefixOf rest || "quot;".data.isPrefixOf rest
        || "#039;".data.isPrefixOf rest
    else true) && ampEntitiesOnly rest

/-- `seo.structuredData` absent from an article's metadata (the one
interpolation the spec excepts from HTML escaping). -/
def sdFree (article : Article) : Bool :=
  match article.seoMetadata with
  | some seo => seo.structuredData.isNone
  | none => true

/-! ## Basic substring lemmas for the recovery routine -/

theorem jsTrim_isInfix (l : Str) : jsTrim l <:+: l :=
  (List.rdropWhile_prefix _ _).isInfix.trans (List.dropWhile_suffix _).isInfix

theorem findMarker_suffix (m : Str) :
    ∀ (s r : Str), findMarker m s = some r → r <:+ s := by
  intro s
  induction s with
  | nil => intro r h; simp [findMarker] at h
  | cons c rest ih =>
    intro r h
    by_cases hp : m.isPrefixOf (c :: rest)
    · simp only [findMarker, hp, if_pos] at h
      cases h
      exact List.drop_suffix _ _
    · simp only [findMarker, hp, if_neg, Bool.false_eq_true, not_false_iff] at h
      exact (ih r h).trans (List.suffix_cons c rest)

theorem takeUntilMarker_isPrefix (m : Str) :
    ∀ (s r : Str), takeUntilMarker m s = some r → r <+: s := by
  intro s
  induction s with
  | nil => intro r h; simp [takeUntilMarker] at h
  | cons c rest ih =>
    intro r h
    by_cases hp : m.isPrefixOf (c :: rest)
    · simp only [takeUntilMarker, hp, if_pos] at h
      cases h
      exact List.nil_prefix
    · simp only [takeUntilMarker, hp, if_neg, Bool.false_eq_true, not_false_iff,
        Option.map_eq_some'] at h
      obtain ⟨r', hr', rfl⟩ := h
      obtain ⟨t, ht⟩ := ih r' hr'
      exact ⟨t, by rw [List.cons_append, ht]⟩

theorem matchFence_isInfix (m s inner : Str) (h : matchFence m s = some inner) :
    inner <:+: s := by
  unfold matchFence at h
  cases hf : findMarker m s with
  | none => rw [hf] at h; cases h
  | some rest =>
    rw [hf] at h
    exact (takeUntilMarker_isPrefix _ _ _ h).isInfix.trans (findMarker_suffix m s rest hf).isInfix

theorem braceFallback_isInfix (response : Str) : braceFallback response <:+: response := by
  unfold braceFallback
  cases h1 : List.findIdx? (· = '{') response with
  | none => exact jsTrim_isInfix response
  | some jsonStart =>
    cases h2 : lastIdxOf '}' response with
    | none => exact jsTrim_isInfix response
    | some jsonEnd =>
      by_cases hlt : jsonStart < jsonEnd
      · simp only [hlt, if_pos]
        exact (List.drop_suffix _ _).isInfix.trans (List.take_prefix _ _).isInfix
      · simp only [hlt, if_neg, not_false_iff]
        exact jsTrim_isInfix response

/-- C9.  Every value returned by `extractJsonFromResponse` is a contiguous
substring of the input: each branch returns the trimmed input, the trimmed
inner content of a fenced block, or the inclusive first-`\x7b`-to-last-`\x7d`
segment, and none synthesizes or reorders characters. -/
theorem c9_substring (jsonOk : Str → Bool) (response : Str) :
    extractJsonFromResponse jsonOk response <:+: response := by
  unfold extractJsonFromResponse
  by_cases h0 : jsonOk (jsTrim response)
  · simp only [h0, if_pos]
    exact jsTrim_isInfix response
  · simp only [h0, Bool.false_eq_true, if_neg, not_false_iff]
    cases hj : matchFence jsonFenceMarker response with
    | some inner => exact (jsTrim_isInfix inner).trans (matchFence_isInfix _ _ _ hj)
    | none =>
      cases hc : matchFence triMarker response with
      | some inner =>
        by_cases hb : startsWithChar '{' (jsTrim inner) && endsWithChar '}' (jsTrim inner)
        · simp only [hb, if_pos]
          exact (jsTrim_isInfix inner).trans (matchFence_isInfix _ _ _ hc)
        · simp only [hb, Bool.false_eq_true, if_neg, not_false_iff]
          exact braceFallback_isInfix response
      | none => exact braceFallback_isInfix response

/-- C2.  When the trimmed input already parses as JSON, Text Recovery
returns the trimmed input unchanged, short-circuiting the fenced-block
searches and the brace scan. -/
theorem c2_direct_parse (jsonOk : Str → Bool) (response : Str)
    (h : jsonOk (jsTrim response) = true) :
    extractJsonFromResponse jsonOk response = jsTrim response := by
  unfold extractJsonFromResponse
  rw [h]
  simp

theorem c2_direct_parse_witness :
    ((fun l => l == "\x7b\x7d".data) (jsTrim "  \x7b\x7d  ".data) = true)
      ∧ extractJsonFromResponse (fun l => l == "\x7b\x7d".data) "  \x7b\x7d  ".data
          = jsTrim "  \x7b\x7d  ".data :=
  ⟨by decide, c2_direct_parse (fun l => l == "\x7b\x7d".data) "  \x7b\x7d  ".data (by decide)⟩

/-! ## C4: the dependent SEO call never fails the article result -/

/-- C4.  When article generation succeeds and metadata generation was
requested, a non-ok response or a thrown error in the dependent SEO call
leaves the 200 article response intact, with the article returned exactly
as generated (no metadata attached). -/
theorem c4_seo_failure_isolated (title keyword : Str) (a : Article) (outcome : SeoOutcome)
    (htitle : title ≠ []) (hkeyword : keyword ≠ [])
    (hfail : outcome = SeoOutcome.httpError ∨ outcome = SeoOutcome.threw) :
    generateArticlePOST title keyword (Except.ok a) true outcome = ArticleResponse.ok 200 a := by
  have hcond : (title.isEmpty || keyword.isEmpty) = false := by
    simp [List.isEmpty_iff, htitle, hkeyword]
  unfold generateArticlePOST
  rw [hcond]
  rcases hfail with rfl | rfl <;> rfl

theorem c4_seo_failure_isolated_witness :
    ("t".data ≠ ([] : Str))
      ∧ generateArticlePOST "t".data "k".data
          (Except.ok ⟨"t".data, [], none⟩) true SeoOutcome.httpError
          = ArticleResponse.ok 200 ⟨"t".data, [], none⟩ :=
  ⟨by decide, c4_seo_failure_isolated "t".data "k".data ⟨"t".data, [], none⟩
    SeoOutcome.httpError (by decide) (by decide) (Or.inl rfl)⟩

/-! ## C8: unsupported export formats fail before any generation -/

theorem exportPOST_unsupported_eq (genMd genHtml : Article → ExportOptions → Str)
    (format : Str) (article : Option Article) (options : ExportOptions)
    (h1 : format ≠ "markdown".data) (h2 : format ≠ "html".data) :
    exportPOST genMd genHtml format article options
      = HttpResponse.json 400
          (if format.isEmpty || article.isNone then "フォーマットと記事データが必要です".data
           else "サポートされていないフォーマットです".data) := by
  unfold exportPOST
  by_cases h0 : (format.isEmpty || article.isNone) = true
  · rw [if_pos h0, if_pos h0]
  · rw [if_neg h0, if_neg h0]
    cases article with
    | none => simp at h0
    | some a =>
      simp only []
      rw [if_neg h1, if_neg h2]

/-- C8.  For a format selector that is neither `markdown` nor `html`, the
export handler returns a 400 error, never a document, and its result does
not depend on the document generators (so neither generator is invoked). -/
theorem c8_unsupported_format (genMd genHtml genMd' genHtml' : Article → ExportOptions → Str)
    (format : Str) (article : Option Article) (options : ExportOptions)
    (h1 : format ≠ "markdown".data) (h2 : format ≠ "html".data) :
    exportPOST genMd genHtml format article options
        = exportPOST genMd' genHtml' format article options
      ∧ (∀ ct cd body, exportPOST genMd genHtml format article options
          ≠ HttpResponse.file ct cd body)
      ∧ ∃ msg, exportPOST genMd genHtml format article options = HttpResponse.json 400 msg := by
  have e := exportPOST_unsupported_eq genMd genHtml format article options h1 h2
  have e' := exportPOST_unsupported_eq genMd' genHtml' format article options h1 h2
  refine ⟨e.trans e'.symm, ?_, _, e⟩
  intro ct cd body h
  rw [e] at h
  cases h

theorem c8_unsupported_format_witness :
    ("pdf".data ≠ "markdown".data)
      ∧ (∀ ct cd body,
          exportPOST (fun _ _ => []) (fun _ _ => []) "pdf".data
              (some ⟨"t".data, [], none⟩) ⟨none, none, none⟩
            ≠ HttpResponse.file ct cd body) :=
  ⟨by decide,
    (c8_unsupported_format (fun _ _ => []) (fun _ _ => []) (fun _ _ => []) (fun _ _ => [])
      "pdf".data (some ⟨"t".data, [], none⟩) ⟨none, none, none⟩
      (by decide) (by decide)).2.1⟩

/-! ## C6: what the article-response validation really checks -/

/-- C6 counterexample.  The parsed response with a truthy title and an
empty `sections` array passes validation and enters the data model with an
empty sections list, contradicting the claim that a validated Article's
sections list is non-empty. -/
theorem c6_counterexample :
    validateArticleResponse
        (JsonVal.jobj [("title".data, JsonVal.jstr "t".data), ("sections".data, JsonVal.jarr [])])
      = some (JsonVal.jobj
          [("title".data, JsonVal.jstr "t".data), ("sections".data, JsonVal.jarr [])])
      ∧ sectionsOf
          (JsonVal.jobj
            [("title".data, JsonVal.jstr "t".data), ("sections".data, JsonVal.jarr [])])
        = [] :=
  ⟨rfl, rfl⟩

/-- C6 as amended.  The validation rejects every parsed response whose
`title` property is not truthy (absent, or present but falsy, such as the
empty string) or lacking a `sections` array, and passes the accepted
value through unchanged; it does not require the sections array to be
non-empty (see the counterexample), nor does it inspect headings or
bodies. -/
theorem c6_amended :
    (∀ parsed : JsonVal, truthyOpt (getField parsed "title".data) = false →
        validateArticleResponse parsed = none)
      ∧ (∀ parsed : JsonVal, getField parsed "sections".data = none →
          validateArticleResponse parsed = none)
      ∧ (∀ parsed v : JsonVal, getField parsed "sections".data = some v →
          (∀ elems, v ≠ JsonVal.jarr elems) → validateArticleResponse parsed = none)
      ∧ (∀ parsed accepted : JsonVal, validateArticleResponse parsed = some accepted →
          accepted = parsed) := by
  refine ⟨?_, ?_, ?_, ?_⟩
  · intro parsed h
    unfold validateArticleResponse
    simp [h]
  · intro parsed h
    unfold validateArticleResponse
    simp [h, truthyOpt]
  · intro parsed v hv harr
    unfold validateArticleResponse
    have : isArrayOpt (getField parsed "sections".data) = false := by
      rw [hv]
      cases v with
      | jarr elems => exact absurd rfl (harr elems)
      | jnull => rfl
      | jbool b => rfl
      | jnum n => rfl
      | jstr s => rfl
      | jobj fields => rfl
    simp [this]
  · intro parsed accepted h
    unfold validateArticleResponse at h
    by_cases hc : truthyOpt (getField parsed "title".data)
        && truthyOpt (getField parsed "sections".data)
        && isArrayOpt (getField parsed "sections".data)
    · rw [if_pos hc] at h
      cases h
      rfl
    · rw [if_neg hc] at h
      cases h

theorem c6_amended_witness :
    (truthyOpt (getField
          (JsonVal.jobj [("title".data, JsonVal.jstr []),
                         ("sections".data, JsonVal.jarr [JsonVal.jobj []])])
          "title".data) = false)
      ∧ validateArticleResponse
          (JsonVal.jobj [("title".data, JsonVal.jstr []),
                         ("sections".data, JsonVal.jarr [JsonVal.jobj []])])
        = none :=
  ⟨rfl, c6_amended.1
    (JsonVal.jobj [("title".data, JsonVal.jstr []),
                   ("sections".data, JsonVal.jarr [JsonVal.jobj []])]) rfl⟩

/-! ## Locating fence matches precisely

`findMarker`/`takeUntilMarker` scan for the first occurrence of a marker.
The lemmas below pin that first occurrence for inputs given in the split
form `pre ++ marker ++ rest`, under hypotheses ruling out earlier or
boundary-straddling occurrences. -/

theorem prefix_append_of_length_le {a b c : Str} (h : a <+: b ++ c)
    (hlen : a.length ≤ b.length) : a <+: b := by
  obtain ⟨t, ht⟩ := h
  have ha : a = (b ++ c).take a.length := by
    rw [← ht, List.take_left' rfl]
  rw [List.take_append_eq_append_take, Nat.sub_eq_zero_of_le hlen, List.take_zero,
    List.append_nil] at ha
  rw [ha]
  exact List.take_prefix _ _

/-- No occurrence of `m` can start strictly inside `pre` in
`pre ++ m ++ rest` when `m` does not occur in `pre` and `m` does not
overlap itself. -/
theorem not_prefix_drop_of_no_overlap (m pre rest : Str)
    (hinf : ¬ m <:+: pre)
    (hover : ∀ L, L < m.length → 0 < L → ¬ (m.drop L) <+: m)
    (p : Nat) (hp : p < pre.length) : ¬ m <+: (pre.drop p ++ (m ++ rest)) := by
  intro h
  have hspos : 0 < (pre.drop p).length := by
    rw [List.length_drop]
    omega
  by_cases hle : m.length ≤ (pre.drop p).length
  · have h1 : m <+: pre.drop p := prefix_append_of_length_le h hle
    exact hinf (h1.isInfix.trans (List.drop_suffix p pre).isInfix)
  · push_neg at hle
    obtain ⟨t, ht⟩ := h
    have h2 : pre.drop p <+: m :=
      prefix_append_of_length_le ⟨m ++ rest, ht.symm⟩ (Nat.le_of_lt hle)
    have h3 : pre.drop p = m.take (pre.drop p).length := by
      obtain ⟨u, hu⟩ := h2
      rw [← hu, List.take_left' rfl]
    have hm : m = pre.drop p ++ m.drop (pre.drop p).length := by
      conv_lhs => rw [← List.take_append_drop (pre.drop p).length m, ← h3]
    have h4 : m ++ rest = m.drop (pre.drop p).length ++ t := by
      have heq : (pre.drop p ++ m.drop (pre.drop p).length) ++ t
          = pre.drop p ++ (m ++ rest) := by rw [← hm]; exact ht
      rw [List.append_assoc] at heq
      exact (List.append_cancel_left heq).symm
    have h5 : m.drop (pre.drop p).length <+: m := by
      refine prefix_append_of_length_le ⟨t, h4.symm⟩ ?_
      rw [List.length_drop]
      omega
    exact hover (pre.drop p).length hle hspos h5

theorem jsonFence_no_overlap : ∀ L, L < jsonFenceMarker.length → 0 < L →
    ¬ (jsonFenceMarker.drop L) <+: jsonFenceMarker := by decide

/-- No occurrence of the triple backtick can start strictly inside `pre`
in `pre ++ \x60\x60\x60 ++ rest` when even `pre ++ \x60\x60` contains no
triple backtick (which also rules out `pre` ending in backticks). -/
theorem triMarker_not_prefix_drop (pre rest : Str)
    (h : ¬ triMarker <:+: (pre ++ "``".data))
    (p : Nat) (hp : p < pre.length) : ¬ triMarker <+: (pre.drop p ++ (triMarker ++ rest)) := by
  intro hpre
  have hspos : 0 < (pre.drop p).length := by
    rw [List.length_drop]
    omega
  by_cases hle : triMarker.length ≤ (pre.drop p).length
  · have h1 : triMarker <+: pre.drop p := prefix_append_of_length_le hpre hle
    have h2 : triMarker <:+: pre := h1.isInfix.trans (List.drop_suffix p pre).isInfix
    exact h (h2.trans (List.prefix_append pre "``".data).isInfix)
  · push_neg at hle
    obtain ⟨t, ht⟩ := hpre
    have h2 : pre.drop p <+: triMarker :=
      prefix_append_of_length_le ⟨triMarker ++ rest, ht.symm⟩ (Nat.le_of_lt hle)
    have h3 : pre.drop p = triMarker.take (pre.drop p).length := by
      obtain ⟨u, hu⟩ := h2
      rw [← hu, List.take_left' rfl]
    have htri : triMarker <+: (pre.drop p ++ "``".data) := by
      have hL : (pre.drop p).length = 1 ∨ (pre.drop p).length = 2 := by
        have : triMarker.length = 3 := by decide
        omega
      rcases hL with hL | hL
      · rw [h3, hL]
        decide
      · rw [h3, hL]
        decide
    have hsuf : (pre.drop p ++ "``".data) <:+ (pre ++ "``".data) := by
      refine ⟨pre.take p, ?_⟩
      rw [← List.append_assoc, List.take_append_drop]
    exact h (htri.isInfix.trans hsuf.isInfix)

theorem findMarker_append (m : Str) : ∀ (pre rest : Str), m ≠ [] →
    (∀ p, p < pre.length → ¬ m <+: (pre.drop p ++ (m ++ rest))) →
    findMarker m (pre ++ (m ++ rest)) = some rest := by
  intro pre
  induction pre with
  | nil =>
    intro rest hm _
    rw [List.nil_append]
    cases m with
    | nil => exact absurd rfl hm
    | cons a as =>
      rw [List.cons_append]
      unfold findMarker
      rw [if_pos ?hpre]
      case hpre =>
        rw [List.isPrefixOf_iff_prefix, ← List.cons_append]
        exact List.prefix_append _ _
      rw [← List.cons_append, List.drop_left]
  | cons c pre' ih =>
    intro rest hm H
    have hc : m.isPrefixOf ((c :: pre') ++ (m ++ rest)) = false := by
      rw [← Bool.not_eq_true, List.isPrefixOf_iff_prefix]
      have := H 0 (by simp)
      simpa using this
    rw [List.cons_append] at hc ⊢
    unfold findMarker
    rw [if_neg (by simp [hc])]
    exact ih rest hm (fun p hp => by
      have := H (p + 1) (by simp; omega)
      simpa using this)

theorem takeUntilMarker_append (m : Str) : ∀ (mid post : Str), m ≠ [] →
    (∀ p, p < mid.length → ¬ m <+: (mid.drop p ++ (m ++ post))) →
    takeUntilMarker m (mid ++ (m ++ post)) = some mid := by
  intro mid
  induction mid with
  | nil =>
    intro post hm _
    rw [List.nil_append]
    cases m with
    | nil => exact absurd rfl hm
    | cons a as =>
      rw [List.cons_append]
      unfold takeUntilMarker
      rw [if_pos ?hpre]
      case hpre =>
        rw [List.isPrefixOf_iff_prefix, ← List.cons_append]
        exact List.prefix_append _ _
  | cons c mid' ih =>
    intro post hm H
    have hc : m.isPrefixOf ((c :: mid') ++ (m ++ post)) = false := by
      rw [← Bool.not_eq_true, List.isPrefixOf_iff_prefix]
      have := H 0 (by simp)
      simpa using this
    rw [List.cons_append] at hc ⊢
    unfold takeUntilMarker
    rw [if_neg (by simp [hc])]
    rw [ih post hm (fun p hp => by
      have := H (p + 1) (by simp; omega)
      simpa using this)]
    rfl

theorem findMarker_eq_none (m : Str) : ∀ (s : Str), ¬ m <:+: s → findMarker m s = none := by
  intro s
  induction s with
  | nil => intro _; rfl
  | cons c rest ih =>
    intro h
    have hc : m.isPrefixOf (c :: rest) = false := by
      rw [← Bool.not_eq_true, List.isPrefixOf_iff_prefix]
      exact fun hp => h hp.isInfix
    unfold findMarker
    rw [if_neg (by simp [hc])]
    exact ih (fun hin => h (List.infix_cons hin))

/-! ## C3: the json-tagged fence takes precedence over the brace scan -/

/-- C3.  When direct parse fails and the input splits as
`pre ++ "\x60\x60\x60json" ++ mid ++ "\x60\x60\x60" ++ post` — with no
earlier `\x60\x60\x60json` occurrence in `pre` and no earlier closing
fence inside `mid` (nor one formed by a backtick run at its end) — Text
Recovery returns exactly the block's inner content `mid` trimmed,
regardless of any braces in the surrounding prose `pre`/`post`. -/
theorem c3_json_fence_precedence (jsonOk : Str → Bool) (pre mid post : Str)
    (hdirect : jsonOk (jsTrim (pre ++ (jsonFenceMarker ++ (mid ++ (triMarker ++ post))))) = false)
    (hpre : ¬ jsonFenceMarker <:+: pre)
    (hmid : ¬ triMarker <:+: (mid ++ "``".data)) :
    extractJsonFromResponse jsonOk (pre ++ (jsonFenceMarker ++ (mid ++ (triMarker ++ post))))
      = jsTrim mid := by
  have hfence : matchFence jsonFenceMarker
      (pre ++ (jsonFenceMarker ++ (mid ++ (triMarker ++ post)))) = some mid := by
    unfold matchFence
    rw [findMarker_append jsonFenceMarker pre (mid ++ (triMarker ++ post)) (by decide)
      (fun p hp => not_prefix_drop_of_no_overlap jsonFenceMarker pre _ hpre
        jsonFence_no_overlap p hp)]
    exact takeUntilMarker_append triMarker mid post (by decide)
      (fun p hp => triMarker_not_prefix_drop mid post hmid p hp)
  unfold extractJsonFromResponse
  rw [hdirect, if_neg (by simp), hfence]

theorem c3_json_fence_precedence_witness :
    (¬ jsonFenceMarker <:+: "Noise \x7bstray ".data)
      ∧ extractJsonFromResponse (fun _ => false)
          ("Noise \x7bstray ".data
            ++ (jsonFenceMarker ++ (" \x7b\"a\": 1\x7d ".data ++ (triMarker ++ " tail\x7d".data))))
        = jsTrim " \x7b\"a\": 1\x7d ".data :=
  ⟨by decide, c3_json_fence_precedence (fun _ => false) "Noise \x7bstray ".data
    " \x7b\"a\": 1\x7d ".data " tail\x7d".data (by decide) (by decide) (by decide)⟩

/-! ## C5: only the first fenced block is examined -/

/-- C5 counterexample.  The input contains a fenced block (the second one)
whose trimmed inner content starts with `\x7b` and ends with `\x7d`, yet
Text Recovery does not return that block's content: the first fenced block
fails the brace test and the routine falls through to the brace scan. -/
theorem c5_counterexample :
    (startsWithChar '{' (jsTrim "\x7b\"a\":1\x7d".data)
        && endsWithChar '}' (jsTrim "\x7b\"a\":1\x7d".data)) = true
      ∧ extractJsonFromResponse (fun _ => false)
          ("x\x7by ```abc``` ".data
            ++ (triMarker ++ ("\x7b\"a\":1\x7d".data ++ (triMarker ++ " z\x7dw".data))))
        ≠ jsTrim "\x7b\"a\":1\x7d".data := by
  exact ⟨by decide, by decide⟩

/-- C5 as amended.  Only the first fenced block is examined: when direct
parse fails, no json-tagged fence exists anywhere, and the first fenced
block's trimmed inner content starts with `\x7b` and ends with `\x7d`,
Text Recovery returns that content; a braced later block is never
consulted (on brace-test failure the routine falls through to the brace
scan, not to other blocks). -/
theorem c5_first_fence_amended (jsonOk : Str → Bool) (pre mid post : Str)
    (hdirect : jsonOk (jsTrim (pre ++ (triMarker ++ (mid ++ (triMarker ++ post))))) = false)
    (hnojson : ¬ jsonFenceMarker <:+: (pre ++ (triMarker ++ (mid ++ (triMarker ++ post)))))
    (hpre : ¬ triMarker <:+: (pre ++ "``".data))
    (hmid : ¬ triMarker <:+: (mid ++ "``".data))
    (hbrace : (startsWithChar '{' (jsTrim mid) && endsWithChar '}' (jsTrim mid)) = true) :
    extractJsonFromResponse jsonOk (pre ++ (triMarker ++ (mid ++ (triMarker ++ post))))
      = jsTrim mid := by
  have hjson : matchFence jsonFenceMarker
      (pre ++ (triMarker ++ (mid ++ (triMarker ++ post)))) = none := by
    unfold matchFence
    rw [findMarker_eq_none jsonFenceMarker _ hnojson]
  have htri : matchFence triMarker
      (pre ++ (triMarker ++ (mid ++ (triMarker ++ post)))) = some mid := by
    unfold matchFence
    rw [findMarker_append triMarker pre (mid ++ (triMarker ++ post)) (by decide)
      (fun p hp => triMarker_not_prefix_drop pre _ hpre p hp)]
    exact takeUntilMarker_append triMarker mid post (by decide)
      (fun p hp => triMarker_not_prefix_drop mid post hmid p hp)
  unfold extractJsonFromResponse
  rw [hdirect, if_neg (by simp), hjson, htri]
  simp [hbrace]

theorem c5_first_fence_amended_witness :
    (startsWithChar '{' (jsTrim "\x7b\"k\": 2\x7d".data)
        && endsWithChar '}' (jsTrim "\x7b\"k\": 2\x7d".data)) = true
      ∧ extractJsonFromResponse (fun _ => false)
          ("see \x7b ".data ++ (triMarker ++ ("\x7b\"k\": 2\x7d".data ++ (triMarker ++ " end".data))))
        = jsTrim "\x7b\"k\": 2\x7d".data :=
  ⟨by decide, c5_first_fence_amended (fun _ => false) "see \x7b ".data
    "\x7b\"k\": 2\x7d".data " end".data (by decide) (by decide) (by decide) (by decide)
    (by decide)⟩

/-! ## C10: synthesized title identifiers -/

theorem natToStrAux_fuel_irrel : ∀ (n f1 f2 : Nat), n < f1 → n < f2 →
    natToStrAux f1 n = natToStrAux f2 n := by
  intro n
  induction n using Nat.strong_induction_on with
  | _ n ih =>
    intro f1 f2 h1 h2
    cases f1 with
    | zero => omega
    | succ f1' =>
      cases f2 with
      | zero => omega
      | succ f2' =>
        by_cases hn : n < 10
        · simp [natToStrAux, hn]
        · have hd : n / 10 < n := Nat.div_lt_self (by omega) (by omega)
          have e1 : natToStrAux (f1' + 1) n
              = natToStrAux f1' (n / 10) ++ [Nat.digitChar (n % 10)] := by
            simp [natToStrAux, hn]
          have e2 : natToStrAux (f2' + 1) n
              = natToStrAux f2' (n / 10) ++ [Nat.digitChar (n % 10)] := by
            simp [natToStrAux, hn]
          rw [e1, e2, ih (n / 10) hd f1' f2' (by omega) (by omega)]

theorem natToStrAux_length_pos (n f : Nat) (h : n < f) :
    0 < (natToStrAux f n).length := by
  cases f with
  | zero => omega
  | succ f' =>
    by_cases hn : n < 10
    · simp [natToStrAux, hn]
    · simp [natToStrAux, hn]

theorem digitChar_inj_lt : ∀ a, a < 10 → ∀ b, b < 10 →
    Nat.digitChar a = Nat.digitChar b → a = b := by decide

theorem natToStr_inj : ∀ (m n : Nat), natToStr m = natToStr n → m = n := by
  intro m
  induction m using Nat.strong_induction_on with
  | _ m ih =>
    intro n h
    unfold natToStr at h
    by_cases hm : m < 10 <;> by_cases hn : n < 10
    · simp only [natToStrAux, hm, hn, if_pos] at h
      exact digitChar_inj_lt m hm n hn (by simpa using congrArg List.head! h)
    · exfalso
      have e : natToStrAux (n + 1) n = natToStrAux n (n / 10) ++ [Nat.digitChar (n % 10)] := by
        simp [natToStrAux, hn]
      have e1 : natToStrAux (m + 1) m = [Nat.digitChar m] := by simp [natToStrAux, hm]
      rw [e, e1] at h
      have hd : n / 10 < n := Nat.div_lt_self (by omega) (by omega)
      have hpos := natToStrAux_length_pos (n / 10) n hd
      have hlen := congrArg List.length h
      rw [List.length_append] at hlen
      simp only [List.length_cons, List.length_nil] at hlen
      omega
    · exfalso
      have e : natToStrAux (m + 1) m = natToStrAux m (m / 10) ++ [Nat.digitChar (m % 10)] := by
        simp [natToStrAux, hm]
      have e1 : natToStrAux (n + 1) n = [Nat.digitChar n] := by simp [natToStrAux, hn]
      rw [e, e1] at h
      have hd : m / 10 < m := Nat.div_lt_self (by omega) (by omega)
      have hpos := natToStrAux_length_pos (m / 10) m hd
      have hlen := congrArg List.length h
      rw [List.length_append] at hlen
      simp only [List.length_cons, List.length_nil] at hlen
      omega
    · have em : natToStrAux (m + 1) m = natToStrAux m (m / 10) ++ [Nat.digitChar (m % 10)] := by
        simp [natToStrAux, hm]
      have en : natToStrAux (n + 1) n = natToStrAux n (n / 10) ++ [Nat.digitChar (n % 10)] := by
        simp [natToStrAux, hn]
      rw [em, en] at h
      obtain ⟨hAB, hc⟩ := List.append_inj' h (by simp)
      have hdm : m / 10 < m := Nat.div_lt_self (by omega) (by omega)
      have hdn : n / 10 < n := Nat.div_lt_self (by omega) (by omega)
      have h10 : m % 10 = n % 10 := by
        have hh : Nat.digitChar (m % 10) = Nat.digitChar (n % 10) := by
          simpa using congrArg List.head! hc
        exact digitChar_inj_lt (m % 10) (Nat.mod_lt m (by omega)) (n % 10)
          (Nat.mod_lt n (by omega)) hh
      have hdiv : m / 10 = n / 10 := by
        apply ih (m / 10) hdm
        unfold natToStr
        rw [natToStrAux_fuel_irrel (m / 10) (m / 10 + 1) m (by omega) hdm, hAB,
          natToStrAux_fuel_irrel (n / 10) n (n / 10 + 1) hdn (by omega)]
      omega

theorem titleId_inj : Function.Injective (fun k => "ai-title-".data ++ natToStr (k + 1)) := by
  intro a b h
  simp only at h
  have := natToStr_inj (a + 1) (b + 1) (List.append_cancel_left h)
  omega

theorem mkTitlesFrom_length (ts : List JsonVal) : ∀ i, (mkTitlesFrom i ts).length = ts.length := by
  induction ts with
  | nil => intro i; rfl
  | cons t ts' ih => intro i; simp [mkTitlesFrom, ih]

theorem mkTitlesFrom_map_id (ts : List JsonVal) : ∀ i,
    (mkTitlesFrom i ts).map GeneratedTitle.id
      = (List.range ts.length).map (fun k => "ai-title-".data ++ natToStr (i + k + 1)) := by
  induction ts with
  | nil => intro i; rfl
  | cons t ts' ih =>
    intro i
    simp only [mkTitlesFrom, List.map_cons, List.length_cons, List.range_succ_eq_map,
      List.map_map, ih (i + 1)]
    refine congrArg₂ _ (by rw [Nat.add_zero]) ?_
    apply List.map_congr_left
    intro k _
    simp only [Function.comp_apply]
    rw [show i + (k + 1) + 1 = i + 1 + k + 1 from by omega]

theorem mkTitlesFrom_map_title (ts : List JsonVal) : ∀ i,
    (mkTitlesFrom i ts).map GeneratedTitle.title
      = ts.map (fun t => getField t "title".data) := by
  induction ts with
  | nil => intro i; rfl
  | cons t ts' ih => intro i; simp [mkTitlesFrom, ih]

theorem mkTitlesFrom_map_description (ts : List JsonVal) : ∀ i,
    (mkTitlesFrom i ts).map GeneratedTitle.description
      = ts.map (fun t => getField t "description".data) := by
  induction ts with
  | nil => intro i; rfl
  | cons t ts' ih => intro i; simp [mkTitlesFrom, ih]

/-- C10.  For a parsed response with `n` entries in its `titles` array,
the returned candidate list has exactly `n` entries; their identifiers are
`ai-title-1` through `ai-title-n` in order — hence pairwise distinct,
whatever id values the model's entries carried — and each entry's title
and description are the `title`/`description` properties of the
corresponding parsed entry, in order. -/
theorem c10_title_ids (titles : List JsonVal) :
    (mkGeneratedTitles titles).length = titles.length
      ∧ (mkGeneratedTitles titles).map GeneratedTitle.id
          = (List.range titles.length).map (fun k => "ai-title-".data ++ natToStr (k + 1))
      ∧ ((mkGeneratedTitles titles).map GeneratedTitle.id).Nodup
      ∧ (mkGeneratedTitles titles).map GeneratedTitle.title
          = titles.map (fun t => getField t "title".data)
      ∧ (mkGeneratedTitles titles).map GeneratedTitle.description
          = titles.map (fun t => getField t "description".data) := by
  have hid : (mkGeneratedTitles titles).map GeneratedTitle.id
      = (List.range titles.length).map (fun k => "ai-title-".data ++ natToStr (k + 1)) := by
    have := mkTitlesFrom_map_id titles 0
    simpa [mkGeneratedTitles] using this
  refine ⟨mkTitlesFrom_length titles 0, hid, ?_, mkTitlesFrom_map_title titles 0,
    mkTitlesFrom_map_description titles 0⟩
  rw [hid]
  exact (List.nodup_range _).map titleId_inj

/-! ## C1: HTML escaping -/

theorem scScan_append (st : Nat) (a b : Str) :
    scScan st (a ++ b) = scScan (scScan st a) b :=
  List.foldl_append ..

theorem scClean_append {a b : Str} (ha : scClean a) (hb : scClean b) :
    scClean (a ++ b) := by
  unfold scClean at *
  rw [scScan_append, ha, hb]

theorem scClean_nil : scClean ([] : Str) := rfl

theorem scStep_zero {c : Char} (h : c ≠ '<') : scStep 0 c = 0 := by
  simp [scStep, h]

theorem scClean_of_not_mem_lt : ∀ {l : Str}, '<' ∉ l → scClean l := by
  intro l
  induction l with
  | nil => intro _; rfl
  | cons c rest ih =>
    intro h
    have hc : c ≠ '<' := fun hcc => h (hcc ▸ List.mem_cons_self c rest)
    have hrest : '<' ∉ rest := fun hr => h (List.mem_cons_of_mem c hr)
    show scScan 0 (c :: rest) = 0
    unfold scScan
    rw [List.foldl_cons, scStep_zero hc]
    exact ih hrest

theorem scClean_flatten : ∀ {L : List Str}, (∀ x ∈ L, scClean x) → scClean L.flatten := by
  intro L
  induction L with
  | nil => intro _; rfl
  | cons x L' ih =>
    intro h
    rw [List.flatten_cons]
    exact scClean_append (h x (List.mem_cons_self x L'))
      (ih fun y hy => h y (List.mem_cons_of_mem x hy))

theorem scClean_flatMap {l : Str} {f : Char → Str} (h : ∀ c ∈ l, scClean (f c)) :
    scClean (l.flatMap f) := by
  unfold List.flatMap
  exact scClean_flatten (fun x hx => by
    obtain ⟨c, hc, rfl⟩ := List.mem_map.mp hx
    exact h c hc)

theorem escapeChar_mem (c : Char) :
    ∀ x ∈ escapeChar c, x ≠ '<' ∧ x ≠ '>' ∧ x ≠ '"' ∧ x ≠ '\'' := by
  unfold escapeChar
  split_ifs with h1 h2 h3 h4 h5
  · decide
  · decide
  · decide
  · decide
  · decide
  · intro x hx
    rw [List.mem_singleton] at hx
    subst hx
    exact ⟨h2, h3, h4, h5⟩

theorem escapeHtml_chars (f : Str) :
    ∀ x ∈ escapeHtml f, x ≠ '<' ∧ x ≠ '>' ∧ x ≠ '"' ∧ x ≠ '\'' := by
  intro x hx
  obtain ⟨c, _, hmem⟩ := List.mem_flatMap.mp hx
  exact escapeChar_mem c x hmem

theorem escapeHtml_no_lt (f : Str) : '<' ∉ escapeHtml f := by
  intro h
  exact (escapeHtml_chars f '<' h).1 rfl

theorem scClean_escapeHtml (f : Str) : scClean (escapeHtml f) :=
  scClean_of_not_mem_lt (escapeHtml_no_lt f)

theorem scClean_replaceNewlines (repl l : Str) (hrepl : scClean repl) (hl : '<' ∉ l) :
    scClean (replaceNewlines repl l) := by
  unfold replaceNewlines
  refine scClean_flatMap (fun c hc => ?_)
  by_cases hnl : c = '\n'
  · simpa [hnl] using hrepl
  · have hc' : c ≠ '<' := fun hcc => hl (hcc ▸ hc)
    simp only [hnl, if_neg, not_false_iff]
    exact scClean_of_not_mem_lt (fun h => hc' (List.mem_singleton.mp h).symm)

theorem scClean_canonicalLink (seo : SEOMetadata) : scClean (canonicalLink seo) := by
  unfold canonicalLink
  cases seo.canonicalUrl with
  | none => exact scClean_nil
  | some u =>
    by_cases hu : u.isEmpty
    · simp only [hu, if_pos]
      exact scClean_nil
    · simp only [hu, Bool.false_eq_true, if_neg, not_false_iff]
      exact scClean_append (scClean_append (by decide) (scClean_escapeHtml u)) (by decide)

theorem scClean_ogUrlLine (seo : SEOMetadata) : scClean (ogUrlLine seo) := by
  unfold ogUrlLine
  cases seo.canonicalUrl with
  | none => exact scClean_nil
  | some u =>
    by_cases hu : u.isEmpty
    · simp only [hu, if_pos]
      exact scClean_nil
    · simp only [hu, Bool.false_eq_true, if_neg, not_false_iff]
      exact scClean_append (scClean_append (by decide) (scClean_escapeHtml u)) (by decide)

theorem scClean_structuredDataBlock (seo : SEOMetadata) (hsd : seo.structuredData = none) :
    scClean (structuredDataBlock seo) := by
  unfold structuredDataBlock
  rw [hsd]
  exact scClean_nil

theorem scClean_seoHeadBlock (seo : SEOMetadata) (hsd : seo.structuredData = none) :
    scClean (seoHeadBlock seo) := by
  unfold seoHeadBlock
  repeat' apply scClean_append
  all_goals first
    | decide
    | exact scClean_escapeHtml _
    | exact scClean_canonicalLink _
    | exact scClean_ogUrlLine _
    | exact scClean_structuredDataBlock _ hsd

theorem scClean_metaInfoBlock (d : Str) (hd : '<' ∉ d) : scClean (metaInfoBlock d) := by
  unfold metaInfoBlock
  repeat' apply scClean_append
  all_goals first
    | decide
    | exact scClean_of_not_mem_lt hd

theorem scClean_subsectionHtml (sub : Subheading) : scClean (subsectionHtml sub) := by
  unfold subsectionHtml
  repeat' apply scClean_append
  all_goals first
    | decide
    | exact scClean_escapeHtml _
    | exact scClean_replaceNewlines _ _ (by decide) (escapeHtml_no_lt _)

theorem scClean_sectionHtml (s : Section) : scClean (sectionHtml s) := by
  unfold sectionHtml
  rcases hsub : s.subheadings with _ | subs
  all_goals simp only [hsub]
  all_goals repeat' apply scClean_append
  all_goals first
    | decide
    | exact scClean_nil
    | exact scClean_escapeHtml _
    | exact scClean_replaceNewlines _ _ (by decide) (escapeHtml_no_lt _)
    | exact scClean_flatten (fun x hx => by
        obtain ⟨sb, _, rfl⟩ := List.mem_map.mp hx
        exact scClean_subsectionHtml sb)

theorem scClean_htmlFooter (d t : Str) (hd : '<' ∉ d) (ht : '<' ∉ t) :
    scClean (htmlFooter d t) := by
  unfold htmlFooter
  repeat' apply scClean_append
  all_goals first
    | decide
    | exact scClean_of_not_mem_lt hd
    | exact scClean_of_not_mem_lt ht

set_option maxRecDepth 2000 in
theorem scClean_styleBlock : scClean styleBlock := by
  unfold styleBlock
  refine scClean_flatten (fun x hx => ?_)
  obtain ⟨l, hl, rfl⟩ := List.mem_map.mp hx
  have H : ∀ l ∈ styleLines, scClean (l ++ ['\n']) := by decide
  exact H l hl

set_option maxRecDepth 4000 in
theorem scClean_generateHTML (article : Article) (options : ExportOptions) (d t : Str)
    (hd : '<' ∉ d) (ht : '<' ∉ t) (hsd : sdFree article = true) :
    scClean (generateHTML article options d t) := by
  have hseoPart : scClean (if includeSEOActive article options then
      match article.seoMetadata with
      | some seo => seoHeadBlock seo
      | none => []
    else "  <title>".data ++ escapeHtml article.title ++ "</title>\n".data) := by
    by_cases hseo : includeSEOActive article options
    · simp only [hseo, if_pos]
      rcases hmeta : article.seoMetadata with _ | seo
      · simp only [hmeta]
        exact scClean_nil
      · simp only [hmeta]
        refine scClean_seoHeadBlock seo ?_
        unfold sdFree at hsd
        rw [hmeta] at hsd
        simpa [Option.isNone_iff_eq_none] using hsd
    · simp only [hseo, Bool.false_eq_true, if_neg, not_false_iff]
      exact scClean_append (scClean_append (by decide) (scClean_escapeHtml _)) (by decide)
  have hstylePart : scClean (if options.includeStyles = some false then [] else styleBlock) := by
    by_cases hst : options.includeStyles = some false
    · simp only [hst, if_pos]
      exact scClean_nil
    · simp only [hst, if_neg, not_false_iff]
      exact scClean_styleBlock
  have hmetaPart : scClean (if includeSEOActive article options then metaInfoBlock d else []) := by
    by_cases hseo : includeSEOActive article options
    · simp only [hseo, if_pos]
      exact scClean_metaInfoBlock d hd
    · simp only [hseo, Bool.false_eq_true, if_neg, not_false_iff]
      exact scClean_nil
  have hsecs : scClean ((article.sections.map sectionHtml).flatten) :=
    scClean_flatten (fun x hx => by
      obtain ⟨s, _, rfl⟩ := List.mem_map.mp hx
      exact scClean_sectionHtml s)
  unfold generateHTML
  exact scClean_append (scClean_append (scClean_append (scClean_append (scClean_append
    (scClean_append (scClean_append (scClean_append (scClean_append (scClean_append
      (scClean_append (scClean_append (by decide) (by decide)) (by decide)) hseoPart)
        hstylePart) (by decide)) hmetaPart) (by decide)) (scClean_escapeHtml _))
          (by decide)) hsecs) (scClean_htmlFooter d t hd ht)) (by decide)

theorem scScan_three (l : Str) : scScan 3 l = 3 := by
  induction l with
  | nil => rfl
  | cons c rest ih =>
    show scScan (scStep 3 c) rest = 3
    rw [show scStep 3 c = 3 from by simp [scStep]]
    exact ih

theorem sc_infix_scan {l : Str} (h : ['<', 's', 'c'] <:+: l) : scScan 0 l = 3 := by
  obtain ⟨u, v, huv⟩ := h
  subst huv
  rw [scScan_append, scScan_append]
  by_cases hst : scScan 0 u = 3
  · rw [hst, scScan_three, scScan_three]
  · rw [show scScan (scScan 0 u) ['<', 's', 'c'] = 3 from ?_, scScan_three]
    show List.foldl scStep (scScan 0 u) ['<', 's', 'c'] = 3
    rw [List.foldl_cons, show scStep (scScan 0 u) '<' = 1 from by simp [scStep, hst]]
    decide

theorem script_infix_sc {l : Str} (h : "<script>".data <:+: l) : ['<', 's', 'c'] <:+: l := by
  obtain ⟨u, v, huv⟩ := h
  refine ⟨u, "ript>".data ++ v, ?_⟩
  rw [← huv]
  rw [show ("<script>".data : Str) = ['<', 's', 'c'] ++ "ript>".data from by decide]
  simp [List.append_assoc]

theorem ampEntitiesOnly_cons_ne (c : Char) (h : c ≠ '&') (rest : Str) :
    ampEntitiesOnly (c :: rest) = ampEntitiesOnly rest := by
  simp [ampEntitiesOnly, h]

theorem ampEntitiesOnly_escapeChar_append (c : Char) (rest : Str)
    (h : ampEntitiesOnly rest = true) : ampEntitiesOnly (escapeChar c ++ rest) = true := by
  unfold escapeChar
  split_ifs with h1 h2 h3 h4 h5
  · show ampEntitiesOnly ('&' :: 'a' :: 'm' :: 'p' :: ';' :: rest) = true
    simp [ampEntitiesOnly, List.isPrefixOf, h]
  · show ampEntitiesOnly ('&' :: 'l' :: 't' :: ';' :: rest) = true
    simp [ampEntitiesOnly, List.isPrefixOf, h]
  · show ampEntitiesOnly ('&' :: 'g' :: 't' :: ';' :: rest) = true
    simp [ampEntitiesOnly, List.isPrefixOf, h]
  · show ampEntitiesOnly ('&' :: 'q' :: 'u' :: 'o' :: 't' :: ';' :: rest) = true
    simp [ampEntitiesOnly, List.isPrefixOf, h]
  · show ampEntitiesOnly ('&' :: '#' :: '0' :: '3' :: '9' :: ';' :: rest) = true
    simp [ampEntitiesOnly, List.isPrefixOf, h]
  · show ampEntitiesOnly (c :: rest) = true
    rw [ampEntitiesOnly_cons_ne c h1 rest]
    exact h

theorem ampEntitiesOnly_escapeHtml (f : Str) : ampEntitiesOnly (escapeHtml f) = true := by
  induction f with
  | nil => rfl
  | cons c f' ih =>
    show ampEntitiesOnly (escapeChar c ++ escapeHtml f') = true
    exact ampEntitiesOnly_escapeChar_append c (escapeHtml f') ih

theorem escapeHtml_append (a b : Str) : escapeHtml (a ++ b) = escapeHtml a ++ escapeHtml b := by
  unfold escapeHtml
  exact List.flatMap_append a b escapeChar

theorem escapeHtml_script_literal {f : Str} (h : "<script>".data <:+: f) :
    "&lt;script&gt;".data <:+: escapeHtml f := by
  obtain ⟨u, v, huv⟩ := h
  refine ⟨escapeHtml u, escapeHtml v, ?_⟩
  rw [← huv, escapeHtml_append, escapeHtml_append]
  rw [show escapeHtml "<script>".data = "&lt;script&gt;".data from by decide]

/-- C1.  HTML escaping of interpolated fields: (i) for every field value
`f`, `escapeHtml f` contains no raw `<`, `>`, `"` or `'`, (ii) every `&`
in `escapeHtml f` starts one of the five escape entities, (iii) a field
containing `<script>` renders as the escaped literal `&lt;script&gt;`, and
(iv) the whole exported document never contains `<script>` as raw markup
— for every article, options and date/time stamps without `<`, with the
structured-data JSON payload (which is serialized, not escaped) excepted
by requiring it absent. -/
theorem c1_html_escaping (article : Article) (options : ExportOptions) (d t f : Str)
    (hd : '<' ∉ d) (ht : '<' ∉ t) (hsd : sdFree article = true) :
    (∀ x ∈ escapeHtml f, x ≠ '<' ∧ x ≠ '>' ∧ x ≠ '"' ∧ x ≠ '\'')
      ∧ ampEntitiesOnly (escapeHtml f) = true
      ∧ ("<script>".data <:+: f → "&lt;script&gt;".data <:+: escapeHtml f)
      ∧ ¬ ("<script>".data <:+: generateHTML article options d t) := by
  refine ⟨escapeHtml_chars f, ampEntitiesOnly_escapeHtml f, escapeHtml_script_literal, ?_⟩
  intro h
  have h3 := sc_infix_scan (script_infix_sc h)
  have h0 := scClean_generateHTML article options d t hd ht hsd
  unfold scClean at h0
  rw [h0] at h3
  cases h3

theorem c1_html_escaping_witness :
    ('<' ∉ "2025/10/11".data)
      ∧ (("<script>".data <:+: "x<script>y".data →
            "&lt;script&gt;".data <:+: escapeHtml "x<script>y".data)
          ∧ ¬ ("<script>".data <:+: generateHTML
              ⟨"a<script>b".data,
                [⟨"h<script>".data, "body <script> here\nmore".data,
                  some [⟨"sub<script>".data, "tail<script>".data⟩]⟩], none⟩
              ⟨none, some false, none⟩ "2025/10/11".data "12:00:00".data)) :=
  ⟨by decide,
    (c1_html_escaping
      ⟨"a<script>b".data,
        [⟨"h<script>".data, "body <script> here\nmore".data,
          some [⟨"sub<script>".data, "tail<script>".data⟩]⟩], none⟩
      ⟨none, some false, none⟩ "2025/10/11".data "12:00:00".data "x<script>y".data
      (by decide) (by decide) (by decide)).2.2⟩

/-! ## C7: Markdown round-trip — line structure of the export -/

theorem splitLines_ne_nil : ∀ (l : Str), splitLines l ≠ [] := by
  intro l
  cases l with
  | nil => simp [splitLines]
  | cons c rest =>
    unfold splitLines
    by_cases hc : c = '\n'
    · simp [hc]
    · simp only [hc, if_neg, not_false_iff]
      cases splitLines rest with
      | nil => simp
      | cons a as => simp

theorem splitLines_no_newline : ∀ (l : Str), ∀ piece ∈ splitLines l, '\n' ∉ piece := by
  intro l
  induction l with
  | nil =>
    intro piece hp
    simp only [splitLines, List.mem_singleton] at hp
    subst hp
    simp
  | cons c rest ih =>
    intro piece hp
    unfold splitLines at hp
    by_cases hc : c = '\n'
    · simp only [hc, if_pos] at hp
      rcases List.mem_cons.mp hp with rfl | hmem
      · simp
      · exact ih piece hmem
    · simp only [hc, if_neg, not_false_iff] at hp
      cases hsp : splitLines rest with
      | nil => exact absurd hsp (splitLines_ne_nil rest)
      | cons a as =>
        rw [hsp] at hp
        rcases List.mem_cons.mp hp with rfl | hmem
        · intro hmem'
          rcases List.mem_cons.mp hmem' with heq | hmem''
          · exact hc heq.symm
          · exact ih a (hsp ▸ List.mem_cons_self a as) hmem''
        · exact ih piece (hsp ▸ List.mem_cons_of_mem a hmem)

theorem joinLines_splitLines : ∀ (l : Str), joinLines (splitLines l) = l := by
  intro l
  induction l with
  | nil => rfl
  | cons c rest ih =>
    unfold splitLines
    by_cases hc : c = '\n'
    · subst hc
      simp only [if_pos]
      cases hsp : splitLines rest with
      | nil => exact absurd hsp (splitLines_ne_nil rest)
      | cons a as =>
        show joinLines ([] :: a :: as) = '\n' :: rest
        unfold joinLines
        rw [← hsp, ih, List.nil_append]
    · simp only [hc, if_neg, not_false_iff]
      cases hsp : splitLines rest with
      | nil => exact absurd hsp (splitLines_ne_nil rest)
      | cons a as =>
        cases as with
        | nil =>
          show joinLines [c :: a] = c :: rest
          unfold joinLines
          rw [hsp] at ih
          unfold joinLines at ih
          rw [ih]
        | cons b bs =>
          show joinLines ((c :: a) :: b :: bs) = c :: rest
          rw [hsp] at ih
          calc (c :: a) ++ '\n' :: joinLines (b :: bs)
              = c :: (a ++ '\n' :: joinLines (b :: bs)) := by rw [List.cons_append]
            _ = c :: joinLines (a :: b :: bs) := rfl
            _ = c :: rest := by rw [ih]

theorem splitLines_cons_ne (c : Char) (tail : Str) (a : Str) (as : List Str)
    (hc : c ≠ '\n') (h : splitLines tail = a :: as) :
    splitLines (c :: tail) = (c :: a) :: as := by
  unfold splitLines
  simp [hc, h]

theorem splitLines_append_newline : ∀ (l rest : Str), '\n' ∉ l →
    splitLines (l ++ '\n' :: rest) = l :: splitLines rest := by
  intro l
  induction l with
  | nil =>
    intro rest _
    rw [List.nil_append]
    simp [splitLines]
  | cons c l' ih =>
    intro rest h
    have hc : c ≠ '\n' := fun hcc => h (hcc ▸ List.mem_cons_self c l')
    have hl' : '\n' ∉ l' := fun hm => h (List.mem_cons_of_mem c hm)
    rw [List.cons_append]
    exact splitLines_cons_ne c _ l' (splitLines rest) hc (ih rest hl')

theorem withNl_nil : withNl [] = [] := rfl

theorem withNl_cons (l : Str) (L : List Str) :
    withNl (l :: L) = (l ++ ['\n']) ++ withNl L := by
  simp [withNl]

theorem withNl_append (A B : List Str) : withNl (A ++ B) = withNl A ++ withNl B := by
  simp [withNl]

theorem joinLines_append_singleton : ∀ (L : List Str) (x : Str), L ≠ [] →
    joinLines (L ++ [x]) = joinLines L ++ '\n' :: x := by
  intro L
  induction L with
  | nil => intro x h; exact absurd rfl h
  | cons a as ih =>
    intro x _
    cases as with
    | nil =>
      show joinLines [a, x] = joinLines [a] ++ '\n' :: x
      unfold joinLines
      rfl
    | cons b bs =>
      show joinLines (a :: ((b :: bs) ++ [x])) = joinLines (a :: b :: bs) ++ '\n' :: x
      have h1 : joinLines (a :: ((b :: bs) ++ [x])) = a ++ '\n' :: joinLines ((b :: bs) ++ [x]) := by
        cases bs <;> rfl
      rw [h1, ih x (by simp)]
      show a ++ '\n' :: (joinLines (b :: bs) ++ '\n' :: x)
          = (a ++ '\n' :: joinLines (b :: bs)) ++ '\n' :: x
      simp

theorem withNl_eq_joinLines : ∀ (L : List Str), L ≠ [] →
    withNl L = joinLines L ++ ['\n'] := by
  intro L
  induction L with
  | nil => intro h; exact absurd rfl h
  | cons a as ih =>
    intro _
    cases as with
    | nil =>
      show withNl [a] = joinLines [a] ++ ['\n']
      simp [withNl, joinLines]
    | cons b bs =>
      rw [withNl_cons, ih (by simp)]
      have : joinLines (a :: b :: bs) = a ++ '\n' :: joinLines (b :: bs) := by
        cases bs <;> rfl
      rw [this]
      simp

theorem withNl_splitLines (c : Str) : withNl (splitLines c) = c ++ ['\n'] := by
  rw [withNl_eq_joinLines (splitLines c) (splitLines_ne_nil c), joinLines_splitLines]

theorem splitLines_withNl : ∀ (L : List Str), (∀ l ∈ L, '\n' ∉ l) →
    splitLines (withNl L) = L ++ [[]] := by
  intro L
  induction L with
  | nil => intro _; rfl
  | cons l L' ih =>
    intro h
    rw [withNl_cons, List.append_assoc, List.singleton_append,
      splitLines_append_newline l _ (h l (List.mem_cons_self l L')),
      ih (fun x hx => h x (List.mem_cons_of_mem l hx))]
    rfl

/-! ## C7: the export equals its line-level specification -/

theorem subheadingMd_eq (sub : Subheading) : subheadingMd sub = withNl (subLinesList sub) := by
  unfold subheadingMd subLinesList
  rw [withNl_cons, withNl_cons, withNl_append, withNl_splitLines]
  simp [withNl, List.append_assoc]

theorem withNl_flatten_subLines (subs : List Subheading) :
    withNl ((subs.map subLinesList).flatten) = (subs.map subheadingMd).flatten := by
  induction subs with
  | nil => rfl
  | cons x xs ihx =>
    simp only [List.map_cons, List.flatten_cons, withNl_append, ihx]
    rw [subheadingMd_eq]

theorem sectionMd_eq (s : Section) : sectionMd s = withNl (secLinesList s) := by
  unfold sectionMd secLinesList
  rcases hsub : s.subheadings with _ | subs
  · simp only [hsub]
    rw [withNl_cons, withNl_cons, withNl_append, withNl_append, withNl_splitLines]
    simp [withNl, List.append_assoc]
  · simp only [hsub]
    rw [withNl_cons, withNl_cons, withNl_append, withNl_append, withNl_splitLines,
      withNl_flatten_subLines]
    simp [withNl, List.append_assoc]

theorem withNl_flatten_secLines (secs : List Section) :
    withNl ((secs.map secLinesList).flatten) = (secs.map sectionMd).flatten := by
  induction secs with
  | nil => rfl
  | cons x xs ihx =>
    simp only [List.map_cons, List.flatten_cons, withNl_append, ihx]
    rw [sectionMd_eq]

theorem generateMarkdown_eq (a : Article) (options : ExportOptions) (isoDate d : Str)
    (hfm : includeSEOActive a options = false) :
    generateMarkdown a options isoDate d = withNl (allLines a) ++ markdownFooter d := by
  unfold generateMarkdown allLines
  rw [hfm, withNl_cons, withNl_cons, withNl_flatten_secLines]
  simp [withNl, List.append_assoc]

/-! ## C7: behaviour of the line-fold extractor -/

theorem isSecStart_marker (h : Str) : isSecStart ("## ".data ++ h) = true := by
  simp [isSecStart]

theorem isSubStart_marker (t : Str) : isSubStart ("### ".data ++ t) = true := by
  simp [isSubStart]

theorem isSecStart_submarker (t : Str) : isSecStart ("### ".data ++ t) = false := by
  rw [Bool.eq_false_iff]
  intro hcon
  unfold isSecStart at hcon
  rw [List.isPrefixOf_iff_prefix] at hcon
  obtain ⟨u, hu⟩ := hcon
  simp at hu

theorem mdStep_body (l : Str) (acc : MdAcc) (h : isBodyLine l = true) :
    mdStep l acc = { acc with pending := l :: acc.pending } := by
  unfold isBodyLine at h
  rw [Bool.and_eq_true, Bool.not_eq_true', Bool.not_eq_true'] at h
  unfold mdStep
  rw [h.1, h.2]
  simp

theorem mdStep_sec (h : Str) (pend : List Str) (subs0 : List Subheading)
    (secs0 : List Section) :
    mdStep ("## ".data ++ h) ⟨pend, subs0, secs0⟩
      = ⟨[], [],
          { heading := h
            content := rtrimJoin pend
            subheadings := if subs0.isEmpty then none else some subs0 } :: secs0⟩ := by
  have hdrop : ("## ".data ++ h).drop 3 = h := List.drop_left' rfl
  unfold mdStep
  rw [isSecStart_marker]
  simp [hdrop]

theorem mdStep_sub (tt : Str) (pend : List Str) (subs0 : List Subheading)
    (secs0 : List Section) :
    mdStep ("### ".data ++ tt) ⟨pend, subs0, secs0⟩
      = ⟨[], { title := tt, content := rtrimJoin pend } :: subs0, secs0⟩ := by
  have hdrop : ("### ".data ++ tt).drop 4 = tt := List.drop_left' rfl
  unfold mdStep
  rw [isSecStart_submarker, isSubStart_marker]
  simp [hdrop]

theorem foldr_mdStep_body : ∀ (CL : List Str) (acc : MdAcc),
    (∀ l ∈ CL, isBodyLine l = true) →
    CL.foldr mdStep acc = { acc with pending := CL ++ acc.pending } := by
  intro CL
  induction CL with
  | nil => intro acc _; simp
  | cons c CL' ih =>
    intro acc h
    rw [List.foldr_cons, ih acc (fun l hl => h l (List.mem_cons_of_mem c hl)),
      mdStep_body c _ (h c (List.mem_cons_self c CL'))]
    rfl

theorem rtrimJoin_body (c : Str) (p : List Str) (hp : p = [] ∨ p = [[]]) :
    rtrimJoin ([] :: (splitLines c ++ ([] :: p))) = rtrimWs c := by
  unfold rtrimJoin
  have hdrop : dropOneBlank ([] :: (splitLines c ++ ([] :: p)))
      = splitLines c ++ ([] :: p) := by
    simp [dropOneBlank]
  rw [hdrop]
  rcases hp with rfl | rfl
  · have h1 : joinLines (splitLines c ++ [[]]) = joinLines (splitLines c) ++ '\n' :: [] :=
      joinLines_append_singleton _ _ (splitLines_ne_nil c)
    rw [h1, joinLines_splitLines]
    have h2 : (c ++ ['\n']).rdropWhile jsWhitespace = c.rdropWhile jsWhitespace :=
      List.rdropWhile_concat_pos jsWhitespace _ '\n' (by decide)
    exact h2
  · have hsplit : splitLines c ++ ([] :: [[]]) = (splitLines c ++ [[]]) ++ [([] : Str)] := by
      simp
    rw [hsplit]
    have h1 : joinLines ((splitLines c ++ [[]]) ++ [([] : Str)])
        = joinLines (splitLines c ++ [[]]) ++ '\n' :: [] :=
      joinLines_append_singleton _ _ (by simp)
    have h2 : joinLines (splitLines c ++ [[]]) = joinLines (splitLines c) ++ '\n' :: [] :=
      joinLines_append_singleton _ _ (splitLines_ne_nil c)
    rw [h1, h2, joinLines_splitLines]
    have h3 : ((c ++ ['\n']) ++ ['\n']).rdropWhile jsWhitespace
        = (c ++ ['\n']).rdropWhile jsWhitespace :=
      List.rdropWhile_concat_pos jsWhitespace _ '\n' (by decide)
    have h4 : (c ++ ['\n']).rdropWhile jsWhitespace = c.rdropWhile jsWhitespace :=
      List.rdropWhile_concat_pos jsWhitespace _ '\n' (by decide)
    rw [show c ++ '\n' :: [] ++ '\n' :: [] = (c ++ ['\n']) ++ ['\n'] from by simp]
    rw [h3, h4]
    rfl

theorem foldr_subLinesList (sub : Subheading) (pend : List Str) (subs0 : List Subheading)
    (secs0 : List Section) (hp : pend = [] ∨ pend = [[]])
    (hbody : ∀ l ∈ splitLines sub.content, isBodyLine l = true) :
    (subLinesList sub).foldr mdStep ⟨pend, subs0, secs0⟩
      = ⟨[], normSubheading sub :: subs0, secs0⟩ := by
  unfold subLinesList
  rw [List.foldr_cons, List.foldr_cons,
    foldr_mdStep_body (splitLines sub.content ++ [[]]) _ (fun l hl => by
      rcases List.mem_append.mp hl with hm | hm
      · exact hbody l hm
      · rw [List.mem_singleton] at hm
        subst hm
        decide),
    mdStep_body [] _ (by decide)]
  have hcontent : rtrimJoin ([] :: ((splitLines sub.content ++ [[]]) ++ pend))
      = rtrimWs sub.content := by
    have hmassage : (splitLines sub.content ++ [[]]) ++ pend
        = splitLines sub.content ++ ([] :: pend) := by simp
    rw [hmassage]
    exact rtrimJoin_body sub.content pend hp
  rw [mdStep_sub]
  rw [hcontent]
  rfl

theorem foldr_subs_flatten : ∀ (subs : List Subheading) (pend : List Str)
    (subs0 : List Subheading) (secs0 : List Section),
    (pend = [] ∨ pend = [[]]) →
    (∀ sub ∈ subs, ∀ l ∈ splitLines sub.content, isBodyLine l = true) →
    ((subs.map subLinesList).flatten).foldr mdStep ⟨pend, subs0, secs0⟩
      = ⟨if subs.isEmpty then pend else [], subs.map normSubheading ++ subs0, secs0⟩ := by
  intro subs
  induction subs with
  | nil => intro pend subs0 secs0 _ _; simp
  | cons x xs ih =>
    intro pend subs0 secs0 hp hbody
    rw [List.map_cons, List.flatten_cons, List.foldr_append,
      ih pend subs0 secs0 hp (fun sub hs => hbody sub (List.mem_cons_of_mem x hs))]
    have hp2 : (if xs.isEmpty then pend else []) = []
        ∨ (if xs.isEmpty then pend else []) = [[]] := by
      by_cases hxs : xs.isEmpty
      · simpa [hxs] using hp
      · simp [hxs]
    rw [foldr_subLinesList x _ _ _ hp2 (hbody x (List.mem_cons_self x xs))]
    simp

theorem foldr_secLinesList (s : Section) (pend : List Str) (secs0 : List Section)
    (hp : pend = [] ∨ pend = [[]])
    (h1 : ∀ l ∈ splitLines s.content, isBodyLine l = true)
    (h2 : s.subheadings ≠ some [])
    (h3 : ∀ subs, s.subheadings = some subs → ∀ sub ∈ subs,
      ∀ l ∈ splitLines sub.content, isBodyLine l = true) :
    (secLinesList s).foldr mdStep ⟨pend, [], secs0⟩
      = ⟨[], [], normSection s :: secs0⟩ := by
  unfold secLinesList
  rw [List.foldr_cons, List.foldr_cons]
  rcases hsub : s.subheadings with _ | subList
  · simp only [hsub, List.append_nil]
    rw [foldr_mdStep_body (splitLines s.content ++ [[]]) _ (fun l hl => by
        rcases List.mem_append.mp hl with hm | hm
        · exact h1 l hm
        · rw [List.mem_singleton] at hm
          subst hm
          decide),
      mdStep_body [] _ (by decide)]
    rw [mdStep_sec]
    have hcontent : rtrimJoin ([] :: ((splitLines s.content ++ [[]]) ++ pend))
        = rtrimWs s.content := by
      have hmassage : (splitLines s.content ++ [[]]) ++ pend
          = splitLines s.content ++ ([] :: pend) := by simp
      rw [hmassage]
      exact rtrimJoin_body s.content pend hp
    rw [hcontent]
    simp [normSection, hsub]
  · simp only [hsub]
    rw [List.append_assoc, List.foldr_append, List.foldr_append]
    have hne : subList ≠ [] := fun hh => h2 (by rw [hsub, hh])
    have hempty : subList.isEmpty = false := by
      simp [List.isEmpty_iff, hne]
    rw [foldr_subs_flatten subList pend [] secs0 hp (h3 subList hsub)]
    rw [hempty]
    simp only [Bool.false_eq_true, if_neg, not_false_iff, List.append_nil]
    rw [foldr_mdStep_body [[]] _ (by decide)]
    rw [foldr_mdStep_body (splitLines s.content) _ h1]
    rw [mdStep_body [] _ (by decide)]
    rw [mdStep_sec]
    have hcontent : rtrimJoin ([] :: (splitLines s.content ++ ([[]] ++ [])))
        = rtrimWs s.content := by
      have hmassage : splitLines s.content ++ ([[]] ++ ([] : List Str))
          = splitLines s.content ++ ([] :: ([] : List Str)) := by simp
      rw [hmassage]
      exact rtrimJoin_body s.content [] (Or.inl rfl)
    rw [hcontent]
    have hmapne : (subList.map normSubheading).isEmpty = false := by
      simp [List.isEmpty_iff, hne]
    rw [hmapne]
    simp only [Bool.false_eq_true, if_neg, not_false_iff]
    simp [normSection, hsub]

theorem foldr_secs_flatten : ∀ (secs : List Section) (pend : List Str) (secs0 : List Section),
    (pend = [] ∨ pend = [[]]) →
    (∀ s ∈ secs,
        (∀ l ∈ splitLines s.content, isBodyLine l = true)
      ∧ s.subheadings ≠ some []
      ∧ (∀ subs, s.subheadings = some subs → ∀ sub ∈ subs,
          ∀ l ∈ splitLines sub.content, isBodyLine l = true)) →
    ((secs.map secLinesList).flatten).foldr mdStep ⟨pend, [], secs0⟩
      = ⟨if secs.isEmpty then pend else [], [], secs.map normSection ++ secs0⟩ := by
  intro secs
  induction secs with
  | nil => intro pend secs0 _ _; simp
  | cons x xs ih =>
    intro pend secs0 hp hok
    rw [List.map_cons, List.flatten_cons, List.foldr_append,
      ih pend secs0 hp (fun s hs => hok s (List.mem_cons_of_mem x hs))]
    have hp2 : (if xs.isEmpty then pend else []) = []
        ∨ (if xs.isEmpty then pend else []) = [[]] := by
      by_cases hxs : xs.isEmpty
      · simpa [hxs] using hp
      · simp [hxs]
    obtain ⟨hx1, hx2, hx3⟩ := hok x (List.mem_cons_self x xs)
    rw [foldr_secLinesList x _ _ hp2 hx1 hx2 hx3]
    simp

theorem parseSecsLines_spec (secs : List Section)
    (hok : ∀ s ∈ secs,
        (∀ l ∈ splitLines s.content, isBodyLine l = true)
      ∧ s.subheadings ≠ some []
      ∧ (∀ subs, s.subheadings = some subs → ∀ sub ∈ subs,
          ∀ l ∈ splitLines sub.content, isBodyLine l = true)) :
    parseSecsLines ([] :: ((secs.map secLinesList).flatten ++ [[]]))
      = secs.map normSection := by
  unfold parseSecsLines
  rw [List.foldr_cons, List.foldr_append]
  have h0 : ([[]] : List Str).foldr mdStep ⟨[], [], []⟩ = ⟨[[]], [], []⟩ := by
    rw [List.foldr_cons, List.foldr_nil, mdStep_body [] _ (by decide)]
  rw [h0, foldr_secs_flatten secs [[]] [] (Or.inr rfl) hok,
    mdStep_body [] _ (by decide)]
  simp

theorem stripSuffix_append (suffixStr x : Str) :
    stripSuffix suffixStr (x ++ suffixStr) = some x := by
  unfold stripSuffix
  rw [if_pos (List.suffix_append x suffixStr)]
  congr 1
  rw [List.length_append, Nat.add_sub_cancel]
  exact List.take_left x suffixStr

theorem allLines_no_newline (a : Article) (htitle : '\n' ∉ a.title)
    (hok : ∀ s ∈ a.sections, '\n' ∉ s.heading
      ∧ (∀ subs, s.subheadings = some subs → ∀ sub ∈ subs, '\n' ∉ sub.title)) :
    ∀ l ∈ allLines a, '\n' ∉ l := by
  intro l hl
  unfold allLines at hl
  rcases List.mem_cons.mp hl with rfl | hl
  · intro hmem
    rcases List.mem_append.mp hmem with hm | hm
    · simp at hm
    · exact htitle hm
  rcases List.mem_cons.mp hl with rfl | hl
  · simp
  obtain ⟨ls, hls, hmem⟩ := List.mem_flatten.mp hl
  obtain ⟨s, hs, rfl⟩ := List.mem_map.mp hls
  unfold secLinesList at hmem
  rcases List.mem_cons.mp hmem with rfl | hmem
  · intro hmem'
    rcases List.mem_append.mp hmem' with hm | hm
    · simp at hm
    · exact (hok s hs).1 hm
  rcases List.mem_cons.mp hmem with rfl | hmem
  · simp
  rcases List.mem_append.mp hmem with hmem | hmem
  · rcases List.mem_append.mp hmem with hmem | hmem
    · exact splitLines_no_newline s.content l hmem
    · rw [List.mem_singleton] at hmem
      subst hmem
      simp
  · rcases hsub : s.subheadings with _ | subs
    · rw [hsub] at hmem
      simp at hmem
    · rw [hsub] at hmem
      obtain ⟨ls2, hls2, hmem2⟩ := List.mem_flatten.mp hmem
      obtain ⟨sb, hsb, rfl⟩ := List.mem_map.mp hls2
      unfold subLinesList at hmem2
      rcases List.mem_cons.mp hmem2 with rfl | hmem2
      · intro hmem'
        rcases List.mem_append.mp hmem' with hm | hm
        · simp at hm
        · exact (hok s hs).2 subs hsub sb hsb hm
      rcases List.mem_cons.mp hmem2 with rfl | hmem2
      · simp
      rcases List.mem_append.mp hmem2 with hmem2 | hmem2
      · exact splitLines_no_newline sb.content l hmem2
      · rw [List.mem_singleton] at hmem2
        subst hmem2
        simp

set_option maxRecDepth 8000 in
/-- C7 counterexample.  For an article whose body contains a line starting
with a heading marker (`## fake`), exporting to Markdown and re-extracting
by splitting on the heading markers does not reproduce the original
headings and bodies (it manufactures a second section), refuting the
round-trip claim stated for every Article. -/
theorem c7_counterexample :
    extractMarkdown "2025/01/01".data
        (generateMarkdown
          ⟨"t".data, [⟨"h".data, "x\n## fake".data, none⟩], none⟩
          ⟨none, none, none⟩ "2025-01-01".data "2025/01/01".data)
      ≠ some ("t".data,
          [normSection ⟨"h".data, "x\n## fake".data, none⟩]) := by
  decide

/-- C7 as amended.  For every article exported without front matter whose
title, headings and subheading titles contain no newline, whose bodies
contain no line starting with the `## ` or `### ` markers, and with no
empty-but-present subheading list, re-extracting the exported Markdown by
splitting on the heading markers (after removing the fixed footer)
reproduces the title exactly and every heading and body up to
trailing-whitespace normalization. -/
theorem c7_roundtrip_amended (a : Article) (options : ExportOptions) (isoDate d : Str)
    (hfm : includeSEOActive a options = false)
    (htitle : '\n' ∉ a.title)
    (hok : ∀ s ∈ a.sections,
        '\n' ∉ s.heading
      ∧ (∀ l ∈ splitLines s.content, isBodyLine l = true)
      ∧ s.subheadings ≠ some []
      ∧ (∀ subs, s.subheadings = some subs → ∀ sub ∈ subs,
          '\n' ∉ sub.title ∧ (∀ l ∈ splitLines sub.content, isBodyLine l = true))) :
    extractMarkdown d (generateMarkdown a options isoDate d)
      = some (a.title, a.sections.map normSection) := by
  rw [generateMarkdown_eq a options isoDate d hfm]
  have hnl : ∀ l ∈ allLines a, '\n' ∉ l :=
    allLines_no_newline a htitle (fun s hs =>
      ⟨(hok s hs).1, fun subs hsubs sub hsub => ((hok s hs).2.2.2 subs hsubs sub hsub).1⟩)
  have e1 : extractMarkdown d (withNl (allLines a) ++ markdownFooter d)
      = (match splitLines (withNl (allLines a)) with
        | [] => none
        | firstLine :: rest =>
          if "# ".data.isPrefixOf firstLine then
            some (firstLine.drop 2, parseSecsLines rest)
          else none) := by
    unfold extractMarkdown
    rw [stripSuffix_append (markdownFooter d) (withNl (allLines a))]
  rw [e1, splitLines_withNl (allLines a) hnl]
  unfold allLines
  simp only [List.cons_append, List.nil_append]
  have hpre : (['#', ' '] : Str).isPrefixOf ('#' :: ' ' :: a.title) = true := by
    simp [List.isPrefixOf]
  rw [if_pos hpre]
  have hdrop : List.drop 2 ('#' :: ' ' :: a.title) = a.title := rfl
  rw [hdrop]
  rw [parseSecsLines_spec a.sections (fun s hs =>
    ⟨(hok s hs).2.1, (hok s hs).2.2.1, fun subs hsubs sub hsub =>
      ((hok s hs).2.2.2 subs hsubs sub hsub).2⟩)]

theorem c7_roundtrip_amended_witness :
    (includeSEOActive
        ⟨"T".data, [⟨"H1".data, "line1\nline2  ".data,
          some [⟨"S1".data, "subbody".data⟩]⟩,
          ⟨"H2".data, "only".data, none⟩], none⟩ ⟨none, none, none⟩ = false)
      ∧ extractMarkdown "2025/01/01".data
          (generateMarkdown
            ⟨"T".data, [⟨"H1".data, "line1\nline2  ".data,
              some [⟨"S1".data, "subbody".data⟩]⟩,
              ⟨"H2".data, "only".data, none⟩], none⟩
            ⟨none, none, none⟩ "2025-01-01".data "2025/01/01".data)
        = some ("T".data,
            [⟨"H1".data, "line1\nline2  ".data,
              some [⟨"S1".data, "subbody".data⟩]⟩,
              ⟨"H2".data, "only".data, none⟩].map normSection) :=
  ⟨by decide,
    c7_roundtrip_amended
      ⟨"T".data, [⟨"H1".data, "line1\nline2  ".data,
        some [⟨"S1".data, "subbody".data⟩]⟩,
        ⟨"H2".data, "only".data, none⟩], none⟩
      ⟨none, none, none⟩ "2025-01-01".data "2025/01/01".data
      (by decide) (by decide) (by decide)⟩

end Llmo

